/-
Verification of the raw-transaction RPC core of zend_oo
(src/rpc/rawtransaction.cpp): the signature-combination engine
(signrawtransaction / signrawcertificate), the inclusion-proof
builder/verifier (gettxoutproof / verifytxoutproof) and the
backward-transfer decoding of certificate outputs (CertToJSON).

Machine integers (uint256, uint160, script bytes) are modelled as Nat;
scripts as lists of byte values.  The external collaborators
(SignSignature, CombineSignatures, VerifyScript, the coins view and the
chain state) are parameters of the definitions, exactly as the spec
treats them (contracts only).
-/
import Mathlib

/-! ## Entity model -/

/-- An outpoint: hash of the referenced previous entity and output index. -/
structure COutPoint where
  hash : Nat
  n : Nat
deriving DecidableEq

/-- A transaction/certificate input. -/
structure CTxIn where
  prevout : COutPoint
  scriptSig : List Nat
  nSequence : Nat
deriving DecidableEq

/-- A transaction/certificate output. -/
structure CTxOut where
  nValue : Int
  scriptPubKey : List Nat
deriving DecidableEq

/-- Script bytes. -/
abbrev Script := List Nat

/-- The mutable transaction being signed (only the fields the signing loop
reads or writes: inputs and outputs). -/
structure CMutableTransaction where
  vin : List CTxIn
  vout : List CTxOut
deriving DecidableEq

/-- The mutable sidechain certificate being signed: inputs, outputs and the
certificate-specific payload committed by its signature hash. -/
structure CMutableScCertificate where
  vin : List CTxIn
  vout : List CTxOut
  scid : Nat
  epochNumber : Nat
  quality : Nat
  endEpochBlockHash : Nat
  scProof : List Nat
deriving DecidableEq

/-! ## Chain-state collaborator (coins view) -/

/-- CCoins: the outputs of a previous entity as stored in the coins view;
spent outputs are `none` (pruned), so `IsAvailable` is "index in range and
not null". -/
structure CCoins where
  vout : List (Option CTxOut)

/-- `coins == NULL || !coins->IsAvailable(prevout.n)` collapsed into one
lookup, returning the referenced output's scriptPubKey when available. -/
def accessOutput (view : Nat → Option CCoins) (op : COutPoint) : Option Script :=
  match view op.hash with
  | none => none
  | some coins =>
    match coins.vout.getD op.n none with
    | none => none
    | some out => some out.scriptPubKey

/-! ## Sighash types -/

def SIGHASH_ALL : Nat := 1
def SIGHASH_NONE : Nat := 2
def SIGHASH_SINGLE : Nat := 3
def SIGHASH_ANYONECANPAY : Nat := 128

/-- `(nHashType & ~SIGHASH_ANYONECANPAY) == SIGHASH_SINGLE` on a 32-bit int. -/
def fHashSingle (nHashType : Nat) : Bool :=
  (nHashType &&& 0xFFFFFF7F) == SIGHASH_SINGLE

/-! ## Per-input error records -/

/-- The JSON object pushed by TxInErrorToJSON for one failed input. -/
structure TxInError where
  txid : Nat
  vout : Nat
  scriptSig : Script
  sequence : Nat
  error : String
deriving DecidableEq

/-- TxInErrorToJSON: builds the error record from the current state of the
input and the message. -/
def TxInErrorToJSON (txin : CTxIn) (strMessage : String) : TxInError :=
  { txid := txin.prevout.hash
    vout := txin.prevout.n
    scriptSig := txin.scriptSig
    sequence := txin.nSequence
    error := strMessage }

/-! ## Script-level collaborators (contracts only) -/

/-- SignSignature: produces a scriptSig (possibly empty or partial) for
input i of the given transaction.  First argument: the locking script. -/
abbrev Signer := Script → CMutableTransaction → Nat → Nat → Script

/-- CombineSignatures(prevPubKey, tx, i, scriptA, scriptB). -/
abbrev Combiner := Script → CMutableTransaction → Nat → Script → Script → Script

/-- VerifyScript with a MutableTransactionSignatureChecker over (tx, i);
`none` means success, `some s` carries ScriptErrorString(serror). -/
abbrev Verifier := Script → Script → CMutableTransaction → Nat → Option String

/-- SignSignature for certificates (the signature hash also commits to the
certificate payload, hence the certificate is the context). -/
abbrev CertSigner := Script → CMutableScCertificate → Nat → Nat → Script

/-- VerifyScript with a MutableCertificateSignatureChecker over (cert, i). -/
abbrev CertVerifier := Script → Script → CMutableScCertificate → Nat → Option String

/-! ## In-place scriptSig update -/

def dummyTxIn : CTxIn := { prevout := { hash := 0, n := 0 }, scriptSig := [], nSequence := 0 }

/-- `tx.vin[i].scriptSig = s` (no-op when i is out of range, which never
happens in the loops below). -/
def CMutableTransaction.setScriptSig (tx : CMutableTransaction) (i : Nat) (s : Script) :
    CMutableTransaction :=
  match tx.vin[i]? with
  | some txin => { tx with vin := tx.vin.set i { txin with scriptSig := s } }
  | none => tx

/-- The current scriptSig of input i. -/
def CMutableTransaction.scriptSigAt (tx : CMutableTransaction) (i : Nat) : Script :=
  ((tx.vin[i]?).map CTxIn.scriptSig).getD []

/-- The current input i (dummy when out of range, never reached). -/
def CMutableTransaction.vinAt (tx : CMutableTransaction) (i : Nat) : CTxIn :=
  (tx.vin[i]?).getD dummyTxIn

def CMutableScCertificate.setScriptSig (c : CMutableScCertificate) (i : Nat) (s : Script) :
    CMutableScCertificate :=
  match c.vin[i]? with
  | some txin => { c with vin := c.vin.set i { txin with scriptSig := s } }
  | none => c

def CMutableScCertificate.scriptSigAt (c : CMutableScCertificate) (i : Nat) : Script :=
  ((c.vin[i]?).map CTxIn.scriptSig).getD []

def CMutableScCertificate.vinAt (c : CMutableScCertificate) (i : Nat) : CTxIn :=
  (c.vin[i]?).getD dummyTxIn

/-! ## The signrawtransaction signing loop -/

/-- State of the "Sign what we can" loop of signrawtransaction: the merged
transaction being mutated and the accumulated vErrors.  `signedIdxs` and
`oob` are ghost observations: the inputs for which SignSignature was
actually invoked, and whether the merge step ever read `txv.vin[i]` out of
bounds (undefined behavior in the C++). -/
structure SignState where
  tx : CMutableTransaction
  errors : List TxInError
  signedIdxs : List Nat
  oob : Bool

/-- The "... and merge in other signatures" fold: for every supplied
variant, replace input i's scriptSig by
CombineSignatures(prevPubKey, mergedTx, i, current scriptSig,
txv.vin[i].scriptSig).  The C++ indexes `txv.vin[i]` with no bounds
check; an out-of-bounds access leaves the transaction alone and raises
the ghost flag (second component). -/
def mergeLoop (combine : Combiner) (prevPubKey : Script) (i : Nat)
    (txVariants : List CMutableTransaction) (acc : CMutableTransaction × Bool) :
    CMutableTransaction × Bool :=
  txVariants.foldl
    (fun acc txv =>
      match txv.vin[i]? with
      | some vini =>
        (acc.1.setScriptSig i (combine prevPubKey acc.1 i (acc.1.scriptSigAt i) vini.scriptSig),
         acc.2)
      | none => (acc.1, true))
    acc

/-- The cleared-then-maybe-signed transaction of one resolved iteration:
clear input i's scriptSig, then, only when the sighash type is not SINGLE
or an output exists at index i (the loop never mutates vout, so the
working transaction's vout is the base one), set the scriptSig to
SignSignature's result. -/
def txTx2 (sign : Signer) (nHashType : Nat) (st : SignState) (i : Nat) (prevPubKey : Script) :
    CMutableTransaction :=
  let tx1 := st.tx.setScriptSig i []
  if !fHashSingle nHashType || decide (i < st.tx.vout.length) then
    tx1.setScriptSig i (sign prevPubKey tx1 i nHashType)
  else tx1

/-- The transaction (and ghost out-of-bounds flag) after the merge fold of
one resolved iteration. -/
def txTx3 (sign : Signer) (combine : Combiner) (nHashType : Nat)
    (txVariants : List CMutableTransaction) (st : SignState) (i : Nat) (prevPubKey : Script) :
    CMutableTransaction × Bool :=
  mergeLoop combine prevPubKey i txVariants (txTx2 sign nHashType st i prevPubKey, st.oob)

/-- The resolved part of one iteration of the signrawtransaction loop:
clear the scriptSig, sign unless the sighash type is SINGLE without a
matching output, fold in every variant's scriptSig for input i via
CombineSignatures, then verify the final script against the locking
script under the merged transaction; on verification failure push the
error record with the verifier's message. -/
def txSignStepCore (sign : Signer) (combine : Combiner) (verify : Verifier) (nHashType : Nat)
    (txVariants : List CMutableTransaction) (st : SignState) (i : Nat) (prevPubKey : Script) :
    SignState :=
  { tx := (txTx3 sign combine nHashType txVariants st i prevPubKey).1
    errors :=
      match verify ((txTx3 sign combine nHashType txVariants st i prevPubKey).1.scriptSigAt i)
          prevPubKey (txTx3 sign combine nHashType txVariants st i prevPubKey).1 i with
      | some msg =>
        st.errors ++
          [TxInErrorToJSON ((txTx3 sign combine nHashType txVariants st i prevPubKey).1.vinAt i) msg]
      | none => st.errors
    signedIdxs :=
      if !fHashSingle nHashType || decide (i < st.tx.vout.length) then st.signedIdxs ++ [i]
      else st.signedIdxs
    oob := (txTx3 sign combine nHashType txVariants st i prevPubKey).2 }

/-- One iteration (input i) of the signrawtransaction loop:
resolve the referenced output; on failure record
"Input not found or already spent" and continue, otherwise run the
clear/sign/merge/verify sequence. -/
def txSignStep (view : Nat → Option CCoins) (sign : Signer) (combine : Combiner)
    (verify : Verifier) (nHashType : Nat) (txVariants : List CMutableTransaction)
    (st : SignState) (i : Nat) : SignState :=
  match st.tx.vin[i]? with
  | none => st
  | some txin =>
    match accessOutput view txin.prevout with
    | none =>
      { st with errors := st.errors ++ [TxInErrorToJSON txin "Input not found or already spent"] }
    | some prevPubKey =>
      txSignStepCore sign combine verify nHashType txVariants st i prevPubKey

/-- The whole "Sign what we can" loop over all inputs of the merged
transaction (which starts as a clone of txVariants[0]). -/
def txSignLoopCore (view : Nat → Option CCoins) (sign : Signer) (combine : Combiner)
    (verify : Verifier) (nHashType : Nat) (txVariants : List CMutableTransaction)
    (mergedTx : CMutableTransaction) : SignState :=
  (List.range mergedTx.vin.length).foldl
    (txSignStep view sign combine verify nHashType txVariants)
    { tx := mergedTx, errors := [], signedIdxs := [], oob := false }

/-- The result object of signrawtransaction / signrawcertificate
(hex encoding of the merged entity replaced by the entity itself). -/
structure SignResult where
  tx : CMutableTransaction
  complete : Bool
  errors : List TxInError
deriving DecidableEq

/-- signrawtransaction after deserialization: txVariants is the list of
transactions decoded from the hex argument; empty means
"Missing transaction", otherwise the merged transaction starts as
txVariants[0] and the loop runs; complete = vErrors.empty(). -/
def signrawtransaction (view : Nat → Option CCoins) (sign : Signer) (combine : Combiner)
    (verify : Verifier) (nHashType : Nat) (txVariants : List CMutableTransaction) :
    Option SignResult :=
  match txVariants with
  | [] => none
  | t0 :: _ =>
    let st := txSignLoopCore view sign combine verify nHashType txVariants t0
    some { tx := st.tx, complete := st.errors.isEmpty, errors := st.errors }

/-! ## The signrawcertificate signing loop -/

structure CertSignState where
  cert : CMutableScCertificate
  errors : List TxInError

/-- The cleared-then-signed certificate of one resolved iteration of the
signrawcertificate loop: clear input i's scriptSig, then set it to
SignSignature's result (no SIGHASH_SINGLE guard: nHashType is fixed to
SIGHASH_ALL by the caller). -/
def certC2 (sign : CertSigner) (nHashType : Nat) (st : CertSignState) (i : Nat)
    (prevPubKey : Script) : CMutableScCertificate :=
  let c1 := st.cert.setScriptSig i []
  c1.setScriptSig i (sign prevPubKey c1 i nHashType)

/-- The resolved part of one iteration of the signrawcertificate loop:
clear, sign, verify; on verification failure push the error record with
the verifier's message.  There is no CombineSignatures merge step. -/
def certSignStepCore (sign : CertSigner) (verify : CertVerifier) (nHashType : Nat)
    (st : CertSignState) (i : Nat) (prevPubKey : Script) : CertSignState :=
  { cert := certC2 sign nHashType st i prevPubKey
    errors :=
      match verify ((certC2 sign nHashType st i prevPubKey).scriptSigAt i) prevPubKey
          (certC2 sign nHashType st i prevPubKey) i with
      | some msg =>
        st.errors ++ [TxInErrorToJSON ((certC2 sign nHashType st i prevPubKey).vinAt i) msg]
      | none => st.errors }

/-- One iteration (input i) of the signrawcertificate loop: resolve the
referenced output; on failure record "Input not found or already spent"
and continue, otherwise run the clear/sign/verify sequence. -/
def certSignStep (view : Nat → Option CCoins) (sign : CertSigner) (verify : CertVerifier)
    (nHashType : Nat) (st : CertSignState) (i : Nat) : CertSignState :=
  match st.cert.vin[i]? with
  | none => st
  | some txin =>
    match accessOutput view txin.prevout with
    | none =>
      { st with errors := st.errors ++ [TxInErrorToJSON txin "Input not found or already spent"] }
    | some prevPubKey =>
      certSignStepCore sign verify nHashType st i prevPubKey

/-- The per-input loop of signrawcertificate over all inputs. -/
def certSignLoop (view : Nat → Option CCoins) (sign : CertSigner) (verify : CertVerifier)
    (nHashType : Nat) (cert : CMutableScCertificate) : CertSignState :=
  (List.range cert.vin.length).foldl
    (certSignStep view sign verify nHashType)
    { cert := cert, errors := [] }

structure CertSignResult where
  cert : CMutableScCertificate
  complete : Bool
  errors : List TxInError
deriving DecidableEq

/-- signrawcertificate after deserialization: the hex argument must decode
to exactly one certificate ("just one and only one certificate expected");
nHashType is fixed to SIGHASH_ALL; complete = vErrors.empty(). -/
def signrawcertificate (view : Nat → Option CCoins) (sign : CertSigner)
    (verify : CertVerifier) (certs : List CMutableScCertificate) :
    Except String CertSignResult :=
  match certs with
  | [] => .error "Missing input certificate"
  | [c] =>
    let st := certSignLoop view sign verify SIGHASH_ALL c
    .ok { cert := st.cert, complete := st.errors.isEmpty, errors := st.errors }
  | _ => .error "Found extra bytes after certificate"

/-! ## Inclusion proofs (partial Merkle trees)

Modelled from the spec: the CMerkleBlock / CPartialMerkleTree machinery
(ExtractMatches, TraverseAndBuild, TraverseAndExtract, CalcTreeWidth,
CalcHash) lives in src/merkleblock.cpp, which is not part of the given
sources; the definitions below follow §4.5/§4.6 of the spec (a pruned
binary Merkle tree over the block's ordered leaf list, depth-first
left-to-right bitmask and retained hashes, bottom-up recomputation with
the retained-hash count replayed from the bitmask).  The combining hash
is an abstract parameter. -/

/-- The 256-bit combining hash, abstracted. -/
abbrev HashF := Nat → Nat → Nat

/-- CalcTreeWidth: number of nodes at the given height,
`(nTransactions + (1 << height) - 1) >> height`. -/
def calcTreeWidth (nTransactions height : Nat) : Nat :=
  (nTransactions + 2 ^ height - 1) / 2 ^ height

/-- The height of the tree: smallest h with `calcTreeWidth n h = 1`
(the C++ computes it by incrementing while the width exceeds 1; the
recursion halves the ceiling width, so n steps of fuel always suffice). -/
def calcTreeHeightAux : Nat → Nat → Nat
  | _, 0 => 0
  | _, 1 => 0
  | 0, _ => 0
  | fuel + 1, n + 2 => calcTreeHeightAux fuel ((n + 3) / 2) + 1

def calcTreeHeight (n : Nat) : Nat := calcTreeHeightAux n n

/-- CalcHash: hash of the node at (height, pos); a leaf is the txid
itself, a missing right child is replaced by the left child. -/
def calcHash (H : HashF) (txids : List Nat) : Nat → Nat → Nat
  | 0, pos => txids.getD pos 0
  | h + 1, pos =>
    let left := calcHash H txids h (2 * pos)
    let right :=
      if 2 * pos + 1 < calcTreeWidth txids.length h then calcHash H txids h (2 * pos + 1)
      else left
    H left right

/-- The leaves under the node at (height, pos). -/
def subLeaves (txids : List Nat) (height pos : Nat) : List Nat :=
  (txids.drop (pos * 2 ^ height)).take (2 ^ height)

/-- Whether any leaf under (height, pos) is matched. -/
def anyMatchIn (txids : List Nat) (mtc : Nat → Bool) (height pos : Nat) : Bool :=
  (subLeaves txids height pos).any mtc

/-- TraverseAndBuild: depth-first, left-to-right emission of the
per-node match bits and of the retained hashes (a node's hash is
retained exactly when it is a leaf or no leaf below it is matched). -/
def traverseAndBuild (H : HashF) (txids : List Nat) (mtc : Nat → Bool) :
    Nat → Nat → List Bool × List Nat
  | 0, pos =>
    ([anyMatchIn txids mtc 0 pos], [calcHash H txids 0 pos])
  | h + 1, pos =>
    if anyMatchIn txids mtc (h + 1) pos then
      let l := traverseAndBuild H txids mtc h (2 * pos)
      if 2 * pos + 1 < calcTreeWidth txids.length h then
        let r := traverseAndBuild H txids mtc h (2 * pos + 1)
        (true :: (l.1 ++ r.1), l.2 ++ r.2)
      else
        (true :: l.1, l.2)
    else
      ([false], [calcHash H txids (h + 1) pos])

/-- TraverseAndExtract: replays the bitmask, consuming retained hashes,
recomputing the node hash bottom-up and collecting matched leaves in leaf
order.  `none` models the fBad overruns (bits or hashes exhausted).
Returns (node hash, matched leaves, remaining bits, remaining hashes). -/
def traverseAndExtract (H : HashF) (nTransactions : Nat) :
    Nat → Nat → List Bool → List Nat → Option (Nat × List Nat × List Bool × List Nat)
  | _, _, [], _ => none
  | 0, _, b :: bits, hashes =>
    match hashes with
    | [] => none
    | hsh :: hs => some (hsh, if b then [hsh] else [], bits, hs)
  | h + 1, pos, b :: bits, hashes =>
    if b then
      match traverseAndExtract H nTransactions h (2 * pos) bits hashes with
      | none => none
      | some (left, lm, bits1, hashes1) =>
        if 2 * pos + 1 < calcTreeWidth nTransactions h then
          match traverseAndExtract H nTransactions h (2 * pos + 1) bits1 hashes1 with
          | none => none
          | some (right, rm, bits2, hashes2) =>
            some (H left right, lm ++ rm, bits2, hashes2)
        else
          some (H left left, lm, bits1, hashes1)
    else
      match hashes with
      | [] => none
      | hsh :: hs => some (hsh, [], bits, hs)

/-- The serialized partial Merkle tree carried by a proof. -/
structure CPartialMerkleTree where
  nTransactions : Nat
  vBits : List Bool
  vHash : List Nat
deriving DecidableEq

/-- ExtractMatches: sanity checks, then replay of the traversal; returns
the recomputed root (0 on any malformed-proof rejection) together with
the recovered matched txids. -/
def extractMatches (H : HashF) (pt : CPartialMerkleTree) : Nat × List Nat :=
  if pt.nTransactions = 0 then (0, [])
  else if pt.nTransactions < pt.vHash.length then (0, [])
  else if pt.vBits.length < pt.vHash.length then (0, [])
  else
    match traverseAndExtract H pt.nTransactions (calcTreeHeight pt.nTransactions) 0
        pt.vBits pt.vHash with
    | none => (0, [])
    | some (root, vMatch, bitsRest, hashesRest) =>
      if hashesRest.length ≠ 0 then (0, vMatch)
      else if (pt.vBits.length - bitsRest.length + 7) / 8 ≠ (pt.vBits.length + 7) / 8 then
        (0, vMatch)
      else (root, vMatch)

/-- A deserialized proof: the block header's own hash and declared Merkle
root, plus the partial tree. -/
structure CMerkleBlock where
  headerHash : Nat
  hashMerkleRoot : Nat
  txn : CPartialMerkleTree
deriving DecidableEq

/-- A block as loaded from disk: its header identifiers and the ordered
list of its transaction ids. -/
structure Block where
  headerHash : Nat
  hashMerkleRoot : Nat
  txids : List Nat
deriving DecidableEq

/-- The CPartialMerkleTree constructor: tag each leaf matched/unmatched
and run the depth-first traversal from the root. -/
def buildPartialTree (H : HashF) (txids : List Nat) (mtc : Nat → Bool) : CPartialMerkleTree :=
  let bh := traverseAndBuild H txids mtc (calcTreeHeight txids.length) 0
  { nTransactions := txids.length, vBits := bh.1, vHash := bh.2 }

/-- The CMerkleBlock constructor: header identifiers from the block, the
partial tree over the block's txids with the requested set matched. -/
def mkMerkleBlock (H : HashF) (block : Block) (setTxids : List Nat) : CMerkleBlock :=
  { headerHash := block.headerHash
    hashMerkleRoot := block.hashMerkleRoot
    txn := buildPartialTree H block.txids (fun t => setTxids.contains t) }

/-! ## gettxoutproof / verifytxoutproof -/

/-- The chain state consulted by the two proof RPCs: mapBlockIndex
(with ReadBlockFromDisk folded in), the coins-view height lookup, the
active chain, GetTransaction's confirming-block lookup (none when the
returned hashBlock is null), and
`mapBlockIndex.count(h) && chainActive.Contains(mapBlockIndex[h])`. -/
structure ChainState where
  blockIndex : Nat → Option Block
  coinsHeight : Nat → Option Nat
  chainHeight : Nat
  blockAtHeight : Nat → Option Block
  txBlockHash : Nat → Option Nat
  inActiveChain : Nat → Bool

/-- gettxoutproof after parameter parsing: txidsParam are the parsed
txids (the C++ loop rejects duplicates while inserting), blockhashParam
the optional explicit block hash.  Resolves the block, requires every
requested txid to be found in it, and builds the CMerkleBlock. -/
def gettxoutproof (H : HashF) (cs : ChainState) (txidsParam : List Nat)
    (blockhashParam : Option Nat) : Except String CMerkleBlock :=
  if ¬ txidsParam.Nodup then .error "Invalid parameter, duplicated txid"
  else
    let setTxids := txidsParam
    let oneTxid := (txidsParam.getLast?).getD 0
    let pblock : Except String (Option Block) :=
      match blockhashParam with
      | some hb =>
        match cs.blockIndex hb with
        | none => .error "Block not found"
        | some b => .ok (some b)
      | none =>
        match cs.coinsHeight oneTxid with
        | some h =>
          if 0 < h ∧ h ≤ cs.chainHeight then .ok (cs.blockAtHeight h) else .ok none
        | none => .ok none
    match pblock with
    | .error e => .error e
    | .ok pb =>
      let blockE : Except String Block :=
        match pb with
        | some b => .ok b
        | none =>
          match cs.txBlockHash oneTxid with
          | none => .error "Transaction not yet in block"
          | some hb =>
            match cs.blockIndex hb with
            | none => .error "Transaction index corrupt"
            | some b => .ok b
      match blockE with
      | .error e => .error e
      | .ok block =>
        let ntxFound := (block.txids.filter (fun t => setTxids.contains t)).length
        if ntxFound ≠ setTxids.length then
          .error "(Not all) transactions not found in specified block"
        else
          .ok (mkMerkleBlock H block setTxids)

/-- verifytxoutproof: recompute the root from the partial tree; on
mismatch return the empty list (no error); otherwise require the
header's block to be known and on the active chain, else fail with
"Block not found in chain"; on success return the matched txids. -/
def verifytxoutproof (H : HashF) (cs : ChainState) (merkleBlock : CMerkleBlock) :
    Except String (List Nat) :=
  let rm := extractMatches H merkleBlock.txn
  if rm.1 ≠ merkleBlock.hashMerkleRoot then .ok []
  else if ¬ cs.inActiveChain merkleBlock.headerHash then
    .error "Block not found in chain"
  else .ok rm.2

/-! ## Backward-transfer decoding in CertToJSON -/

def OP_HASH160 : Nat := 0xa9

/-- Result of the backward-transfer pubkeyhash decode for one certificate
output flagged as a backward transfer. -/
inductive BwtDecode where
  | pubKeyHash (bytes : List Nat)
  | decodeError
  | oobRead
deriving DecidableEq

/-- The index of the first occurrence of the marker byte, if any
(std::find over the script bytes). -/
def findMarker (script : List Nat) (marker : Nat) : Option Nat :=
  match script with
  | [] => none
  | b :: rest =>
    if b = marker then some 0
    else (findMarker rest marker).map (· + 1)

/-- The pubkeyhash decode CertToJSON performs on an output flagged as a
backward transfer: find OP_HASH160, step two bytes past it, read the next
20 bytes (sizeof(uint160)) and reverse them; when the marker is absent the
string is "<<Decode error>>".  When the marker is present but fewer than
22 bytes follow it, the C++ constructs the vector from iterators past the
end of the script: an out-of-bounds read, modelled by `oobRead`. -/
def certBwtPubKeyHash (scriptPubKey : List Nat) : BwtDecode :=
  match findMarker scriptPubKey OP_HASH160 with
  | none => .decodeError
  | some idx =>
    if idx + 2 + 20 ≤ scriptPubKey.length then
      .pubKeyHash (((scriptPubKey.drop (idx + 2)).take 20).reverse)
    else
      .oobRead

/-- The transaction-shaped projection of a certificate: its inputs and
outputs. -/
def certToTx (c : CMutableScCertificate) : CMutableTransaction :=
  { vin := c.vin, vout := c.vout }

/-- Graft a transaction shape (inputs/outputs) onto a certificate's
payload. -/
def withShape (c : CMutableScCertificate) (tx : CMutableTransaction) : CMutableScCertificate :=
  { c with vin := tx.vin, vout := tx.vout }

/-- Whether the signrawtransaction loop invokes SignSignature for input
j: the referenced output resolves and the SIGHASH_SINGLE guard passes
(stated over the base transaction, whose prevouts and vout the loop never
changes). -/
def signedPred (view : Nat → Option CCoins) (nHashType : Nat)
    (mergedTx : CMutableTransaction) (j : Nat) : Bool :=
  (match mergedTx.vin[j]? with
   | some t => (accessOutput view t.prevout).isSome
   | none => false) &&
  (!fHashSingle nHashType || decide (j < mergedTx.vout.length))

/-! ## Concrete instances used by witnesses and counterexamples -/

/-- A coins view with no coins at all. -/
def exView0 : Nat → Option CCoins := fun _ => none

def exOut : CTxOut := { nValue := 0, scriptPubKey := [0xaa] }

/-- A coins view resolving only outpoint (1, 0). -/
def exViewA : Nat → Option CCoins :=
  fun h => if h = 1 then some { vout := [some exOut] } else none

/-- A signer with no usable keys: always the empty script. -/
def exSign : Signer := fun _ _ _ _ => []

def exCertSign : CertSigner := fun _ _ _ _ => []

/-- A combiner preferring a non-empty candidate over an empty
accumulator. -/
def exCombine : Combiner := fun _ _ _ a b => if a = [] then b else a

/-- A verifier that accepts everything. -/
def exVerifyOk : Verifier := fun _ _ _ _ => none

def exCertVerifyOk : CertVerifier := fun _ _ _ _ => none

def exIn1 : CTxIn := { prevout := { hash := 9, n := 0 }, scriptSig := [7], nSequence := 5 }

/-- One input (unresolvable under exView0), no outputs. -/
def exTx1 : CMutableTransaction := { vin := [exIn1], vout := [] }

def exInA : CTxIn := { prevout := { hash := 1, n := 0 }, scriptSig := [], nSequence := 0 }

def exTxBase : CMutableTransaction := { vin := [exInA], vout := [] }

def exInV : CTxIn := { prevout := { hash := 1, n := 0 }, scriptSig := [5], nSequence := 0 }

/-- A signed variant of exTxBase. -/
def exTxVar : CMutableTransaction := { vin := [exInV], vout := [] }

/-- A malformed variant with no inputs at all. -/
def exTxNoIn : CMutableTransaction := { vin := [], vout := [] }

def exCertBase : CMutableScCertificate :=
  { vin := [exInA], vout := [], scid := 3, epochNumber := 1, quality := 2,
    endEpochBlockHash := 4, scProof := [0] }

/-- A concrete combining hash for the Merkle examples. -/
def exH : HashF := fun a b => 2 * a + 3 * b + 1

def exBlockTxids : List Nat := [10, 20, 30, 40]

def exBlock : Block :=
  { headerHash := 77
    hashMerkleRoot := calcHash exH exBlockTxids (calcTreeHeight exBlockTxids.length) 0
    txids := exBlockTxids }

def exChain : ChainState :=
  { blockIndex := fun hb => if hb = 100 then some exBlock else none
    coinsHeight := fun _ => none
    chainHeight := 0
    blockAtHeight := fun _ => none
    txBlockHash := fun _ => none
    inActiveChain := fun h => h == 77 }

/-- The same chain state with nothing on the active chain. -/
def exChainNone : ChainState :=
  { blockIndex := fun hb => if hb = 100 then some exBlock else none
    coinsHeight := fun _ => none
    chainHeight := 0
    blockAtHeight := fun _ => none
    txBlockHash := fun _ => none
    inActiveChain := fun _ => false }

/-- A proof whose declared root does not match its partial tree. -/
def exMbBad : CMerkleBlock :=
  { headerHash := 77, hashMerkleRoot := 999999
    txn := buildPartialTree exH exBlockTxids (fun t => t == 20) }

/-- A well-formed proof over exBlock matching {20}. -/
def exMbGood : CMerkleBlock := mkMerkleBlock exH exBlock [20]

/-- The result of signrawtransaction on exTx1 under the empty view. -/
def exR1 : SignResult :=
  { tx := exTx1, complete := false
    errors := [TxInErrorToJSON exIn1 "Input not found or already spent"] }

/-! ## Generic list helpers -/

/-- Setting an index to the value it already holds is the identity. -/
theorem List.set_of_getElem_eq {α : Type} :
    ∀ (l : List α) (i : Nat) (a : α), l[i]? = some a → l.set i a = l
  | [], _, _, h => by simp at h
  | x :: xs, 0, a, h => by
    simp at h
    simp [List.set, h]
  | x :: xs, i + 1, a, h => by
    simp at h
    simp [List.set, List.set_of_getElem_eq xs i a h]

/-- Invariant preservation through a left fold. -/
theorem foldl_invariant {α β : Type} (P : β → Prop) (f : β → α → β) :
    ∀ (l : List α) (b : β), P b → (∀ b a, a ∈ l → P b → P (f b a)) → P (l.foldl f b)
  | [], b, hb, _ => hb
  | x :: xs, b, hb, hf => by
    simpa using foldl_invariant P f xs (f b x) (hf b x (by simp) hb)
      (fun b a ha hb => hf b a (by simp [ha]) hb)

/-! ## setScriptSig preservation lemmas -/

theorem setScriptSig_vout (tx : CMutableTransaction) (i : Nat) (s : Script) :
    (tx.setScriptSig i s).vout = tx.vout := by
  unfold CMutableTransaction.setScriptSig
  cases tx.vin[i]? <;> rfl

theorem setScriptSig_vin_length (tx : CMutableTransaction) (i : Nat) (s : Script) :
    (tx.setScriptSig i s).vin.length = tx.vin.length := by
  unfold CMutableTransaction.setScriptSig
  cases tx.vin[i]? <;> simp

/-- The shape of an input: everything the loop never changes. -/
def CTxIn.shape (t : CTxIn) : COutPoint × Nat := (t.prevout, t.nSequence)

theorem setScriptSig_shape (tx : CMutableTransaction) (i : Nat) (s : Script) :
    (tx.setScriptSig i s).vin.map CTxIn.shape = tx.vin.map CTxIn.shape := by
  unfold CMutableTransaction.setScriptSig
  cases h : tx.vin[i]? with
  | none => rfl
  | some txin =>
    simp only [List.map_set]
    exact List.set_of_getElem_eq _ i _ (by simp [List.getElem?_map, h, CTxIn.shape])

theorem setScriptSig_getElem_ne (tx : CMutableTransaction) (i j : Nat) (s : Script)
    (hne : j ≠ i) : (tx.setScriptSig i s).vin[j]? = tx.vin[j]? := by
  unfold CMutableTransaction.setScriptSig
  cases h : tx.vin[i]? with
  | none => rfl
  | some txin => simp [List.getElem?_set_ne (Ne.symm hne)]

/-! ## mergeLoop lemmas -/

/-- Any property preserved by `setScriptSig i` is preserved by the merge
fold (it only rewrites input i's scriptSig). -/
theorem mergeLoop_pres (P : CMutableTransaction → Prop) (combine : Combiner)
    (prevPubKey : Script) (i : Nat)
    (hset : ∀ tx s, P tx → P (tx.setScriptSig i s)) :
    ∀ (txVariants : List CMutableTransaction) (acc : CMutableTransaction × Bool),
      P acc.1 → P (mergeLoop combine prevPubKey i txVariants acc).1
  | [], acc, h => h
  | txv :: rest, acc, h => by
    unfold mergeLoop
    simp only [List.foldl_cons]
    cases hv : txv.vin[i]? with
    | none => exact mergeLoop_pres P combine prevPubKey i hset rest _ (by simpa [hv] using h)
    | some vini =>
      exact mergeLoop_pres P combine prevPubKey i hset rest _ (by simp [hv]; exact hset _ _ h)

/-- When every variant has an input at index i, the out-of-bounds flag is
never raised by the merge fold. -/
theorem mergeLoop_oob (combine : Combiner) (prevPubKey : Script) (i : Nat) :
    ∀ (txVariants : List CMutableTransaction) (acc : CMutableTransaction × Bool),
      (∀ v ∈ txVariants, i < v.vin.length) →
      (mergeLoop combine prevPubKey i txVariants acc).2 = acc.2
  | [], acc, _ => rfl
  | txv :: rest, acc, h => by
    unfold mergeLoop
    simp only [List.foldl_cons]
    have hik : i < txv.vin.length := h txv (by simp)
    have hv : txv.vin[i]? = some txv.vin[i] := List.getElem?_eq_getElem hik
    simp only [hv]
    exact mergeLoop_oob combine prevPubKey i rest _ (fun v hvr => h v (by simp [hvr]))

/-! ## txSignStep characterization and preservation lemmas -/

theorem txSignStep_eq_none (view : Nat → Option CCoins) (sign : Signer) (combine : Combiner)
    (verify : Verifier) (nHashType : Nat) (txVariants : List CMutableTransaction)
    (st : SignState) (i : Nat) (h : st.tx.vin[i]? = none) :
    txSignStep view sign combine verify nHashType txVariants st i = st := by
  simp [txSignStep, h]

theorem txSignStep_eq_unavail (view : Nat → Option CCoins) (sign : Signer) (combine : Combiner)
    (verify : Verifier) (nHashType : Nat) (txVariants : List CMutableTransaction)
    (st : SignState) (i : Nat) (txin : CTxIn) (h1 : st.tx.vin[i]? = some txin)
    (h2 : accessOutput view txin.prevout = none) :
    txSignStep view sign combine verify nHashType txVariants st i =
      { st with errors := st.errors ++ [TxInErrorToJSON txin "Input not found or already spent"] } := by
  simp [txSignStep, h1, h2]

theorem txSignStep_eq_resolved (view : Nat → Option CCoins) (sign : Signer) (combine : Combiner)
    (verify : Verifier) (nHashType : Nat) (txVariants : List CMutableTransaction)
    (st : SignState) (i : Nat) (txin : CTxIn) (prevPubKey : Script)
    (h1 : st.tx.vin[i]? = some txin) (h2 : accessOutput view txin.prevout = some prevPubKey) :
    txSignStep view sign combine verify nHashType txVariants st i =
      txSignStepCore sign combine verify nHashType txVariants st i prevPubKey := by
  simp [txSignStep, h1, h2]

/-- Errors after the resolved step: either unchanged (verification passed)
or extended with exactly one record carrying the verifier's message. -/
theorem txSignStepCore_errors (sign : Signer) (combine : Combiner) (verify : Verifier)
    (nHashType : Nat) (txVariants : List CMutableTransaction) (st : SignState) (i : Nat)
    (prevPubKey : Script) :
    (txSignStepCore sign combine verify nHashType txVariants st i prevPubKey).errors =
        st.errors ∨
      ∃ tx3 msg, verify (tx3.scriptSigAt i) prevPubKey tx3 i = some msg ∧
        (txSignStepCore sign combine verify nHashType txVariants st i prevPubKey).errors =
          st.errors ++ [TxInErrorToJSON (tx3.vinAt i) msg] := by
  unfold txSignStepCore
  cases hv : verify ((txTx3 sign combine nHashType txVariants st i prevPubKey).1.scriptSigAt i)
      prevPubKey (txTx3 sign combine nHashType txVariants st i prevPubKey).1 i with
  | none => exact Or.inl (by simp [hv])
  | some msg => exact Or.inr ⟨_, msg, hv, by simp [hv]⟩

/-- txTx2 preserves any transaction property stable under setScriptSig i. -/
theorem txTx2_pres (P : CMutableTransaction → Prop) (sign : Signer) (nHashType : Nat)
    (st : SignState) (i : Nat) (prevPubKey : Script)
    (hset : ∀ tx s, P tx → P (tx.setScriptSig i s)) (h : P st.tx) :
    P (txTx2 sign nHashType st i prevPubKey) := by
  unfold txTx2
  split
  · exact hset _ _ (hset _ _ h)
  · exact hset _ _ h

/-- The merged transaction of a resolved step preserves any transaction
property stable under setScriptSig i. -/
theorem txTx3_pres (P : CMutableTransaction → Prop) (sign : Signer) (combine : Combiner)
    (nHashType : Nat) (txVariants : List CMutableTransaction) (st : SignState) (i : Nat)
    (prevPubKey : Script)
    (hset : ∀ tx s, P tx → P (tx.setScriptSig i s)) (h : P st.tx) :
    P (txTx3 sign combine nHashType txVariants st i prevPubKey).1 :=
  mergeLoop_pres P combine prevPubKey i hset txVariants _
    (txTx2_pres P sign nHashType st i prevPubKey hset h)

/-! ## Step-level preservation for the transaction loop -/

/-- Any transaction property stable under setScriptSig at the step's index
is preserved by one loop iteration. -/
theorem txSignStep_tx_pres (view : Nat → Option CCoins) (sign : Signer) (combine : Combiner)
    (verify : Verifier) (nHashType : Nat) (txVariants : List CMutableTransaction)
    (P : CMutableTransaction → Prop) (st : SignState) (i : Nat)
    (hset : ∀ tx s, P tx → P (tx.setScriptSig i s)) (h : P st.tx) :
    P (txSignStep view sign combine verify nHashType txVariants st i).tx := by
  cases h1 : st.tx.vin[i]? with
  | none => rw [txSignStep_eq_none view sign combine verify nHashType txVariants st i h1]; exact h
  | some txin =>
    cases h2 : accessOutput view txin.prevout with
    | none =>
      rw [txSignStep_eq_unavail view sign combine verify nHashType txVariants st i txin h1 h2]
      exact h
    | some prevPubKey =>
      rw [txSignStep_eq_resolved view sign combine verify nHashType txVariants st i txin
        prevPubKey h1 h2]
      exact txTx3_pres P sign combine nHashType txVariants st i prevPubKey hset h

/-- Errors only grow during one loop iteration. -/
theorem txSignStep_errors_mono (view : Nat → Option CCoins) (sign : Signer) (combine : Combiner)
    (verify : Verifier) (nHashType : Nat) (txVariants : List CMutableTransaction)
    (st : SignState) (i : Nat) :
    ∃ tl, (txSignStep view sign combine verify nHashType txVariants st i).errors =
      st.errors ++ tl := by
  cases h1 : st.tx.vin[i]? with
  | none => exact ⟨[], by rw [txSignStep_eq_none view sign combine verify nHashType txVariants st i h1]; simp⟩
  | some txin =>
    cases h2 : accessOutput view txin.prevout with
    | none =>
      exact ⟨_, by rw [txSignStep_eq_unavail view sign combine verify nHashType txVariants st i txin h1 h2]⟩
    | some prevPubKey =>
      rw [txSignStep_eq_resolved view sign combine verify nHashType txVariants st i txin
        prevPubKey h1 h2]
      rcases txSignStepCore_errors sign combine verify nHashType txVariants st i prevPubKey with
        h | ⟨tx3, msg, _, h⟩
      · exact ⟨[], by simp [h]⟩
      · exact ⟨_, h⟩

/-- One loop iteration never raises the ghost out-of-bounds flag when
every supplied variant has an input at the step's index. -/
theorem txSignStep_oob (view : Nat → Option CCoins) (sign : Signer) (combine : Combiner)
    (verify : Verifier) (nHashType : Nat) (txVariants : List CMutableTransaction)
    (st : SignState) (i : Nat)
    (hvar : ∀ v ∈ txVariants, i < v.vin.length) (hoob : st.oob = false) :
    (txSignStep view sign combine verify nHashType txVariants st i).oob = false := by
  cases h1 : st.tx.vin[i]? with
  | none => rw [txSignStep_eq_none view sign combine verify nHashType txVariants st i h1]; exact hoob
  | some txin =>
    cases h2 : accessOutput view txin.prevout with
    | none =>
      rw [txSignStep_eq_unavail view sign combine verify nHashType txVariants st i txin h1 h2]
      exact hoob
    | some prevPubKey =>
      rw [txSignStep_eq_resolved view sign combine verify nHashType txVariants st i txin
        prevPubKey h1 h2]
      show (txTx3 sign combine nHashType txVariants st i prevPubKey).2 = false
      unfold txTx3
      rw [mergeLoop_oob combine prevPubKey i txVariants _ hvar]
      exact hoob

/-! ## Loop-level invariants for signrawtransaction -/

/-- The loop never changes the outputs nor the inputs' shapes
(prevout, nSequence); in particular the input count is preserved. -/
theorem txSignLoopCore_shape (view : Nat → Option CCoins) (sign : Signer) (combine : Combiner)
    (verify : Verifier) (nHashType : Nat) (txVariants : List CMutableTransaction)
    (mergedTx : CMutableTransaction) :
    (txSignLoopCore view sign combine verify nHashType txVariants mergedTx).tx.vout =
        mergedTx.vout ∧
      (txSignLoopCore view sign combine verify nHashType txVariants mergedTx).tx.vin.map
        CTxIn.shape = mergedTx.vin.map CTxIn.shape := by
  unfold txSignLoopCore
  refine foldl_invariant
    (fun (st : SignState) =>
      st.tx.vout = mergedTx.vout ∧ st.tx.vin.map CTxIn.shape = mergedTx.vin.map CTxIn.shape)
    _ _ _ ⟨rfl, rfl⟩ ?_
  intro st i _ h
  refine ⟨?_, ?_⟩
  · exact txSignStep_tx_pres view sign combine verify nHashType txVariants
      (fun t => t.vout = mergedTx.vout) st i
      (fun tx s ht => by show (tx.setScriptSig i s).vout = _; rw [setScriptSig_vout]; exact ht) h.1
  · exact txSignStep_tx_pres view sign combine verify nHashType txVariants
      (fun t => t.vin.map CTxIn.shape = mergedTx.vin.map CTxIn.shape) st i
      (fun tx s ht => by
        show (tx.setScriptSig i s).vin.map CTxIn.shape = _
        rw [setScriptSig_shape]; exact ht) h.2

/-- C9 loop body: when every supplied variant has at least as many inputs
as the merged transaction, the out-of-bounds branch of the merge fold is
never taken. -/
theorem txSignLoopCore_oob (view : Nat → Option CCoins) (sign : Signer) (combine : Combiner)
    (verify : Verifier) (nHashType : Nat) (txVariants : List CMutableTransaction)
    (mergedTx : CMutableTransaction)
    (hvar : ∀ v ∈ txVariants, mergedTx.vin.length ≤ v.vin.length) :
    (txSignLoopCore view sign combine verify nHashType txVariants mergedTx).oob = false := by
  unfold txSignLoopCore
  refine foldl_invariant (fun (st : SignState) => st.oob = false) _ _ _ rfl ?_
  intro st i hi h
  exact txSignStep_oob view sign combine verify nHashType txVariants st i
    (fun v hv => lt_of_lt_of_le (List.mem_range.mp hi) (hvar v hv)) h

/-- When every input's referenced output is unavailable, the loop leaves
the transaction untouched and records exactly one error per processed
input. -/
theorem txSignLoop_allUnavail_aux (view : Nat → Option CCoins) (sign : Signer)
    (combine : Combiner) (verify : Verifier) (nHashType : Nat)
    (txVariants : List CMutableTransaction) (mergedTx : CMutableTransaction)
    (hall : ∀ txin ∈ mergedTx.vin, accessOutput view txin.prevout = none) :
    ∀ k, k ≤ mergedTx.vin.length →
      ((List.range k).foldl (txSignStep view sign combine verify nHashType txVariants)
          { tx := mergedTx, errors := [], signedIdxs := [], oob := false }).tx = mergedTx ∧
        ((List.range k).foldl (txSignStep view sign combine verify nHashType txVariants)
          { tx := mergedTx, errors := [], signedIdxs := [], oob := false }).errors.length = k := by
  intro k
  induction k with
  | zero => intro _; exact ⟨rfl, rfl⟩
  | succ k ih =>
    intro hk
    obtain ⟨htx, herr⟩ := ih (Nat.le_of_succ_le hk)
    rw [List.range_succ, List.foldl_append, List.foldl_cons, List.foldl_nil]
    set st := (List.range k).foldl (txSignStep view sign combine verify nHashType txVariants)
      { tx := mergedTx, errors := [], signedIdxs := [], oob := false } with hst
    have hk' : k < mergedTx.vin.length := hk
    have h1 : st.tx.vin[k]? = some mergedTx.vin[k] := by
      rw [htx]; exact List.getElem?_eq_getElem hk'
    have h2 : accessOutput view mergedTx.vin[k].prevout = none :=
      hall _ (List.getElem_mem hk')
    rw [txSignStep_eq_unavail view sign combine verify nHashType txVariants st k _ h1 h2]
    exact ⟨htx, by simp [herr]⟩

/-- The all-unavailable loop result: transaction unchanged, one error per
input. -/
theorem txSignLoopCore_allUnavail (view : Nat → Option CCoins) (sign : Signer)
    (combine : Combiner) (verify : Verifier) (nHashType : Nat)
    (txVariants : List CMutableTransaction) (mergedTx : CMutableTransaction)
    (hall : ∀ txin ∈ mergedTx.vin, accessOutput view txin.prevout = none) :
    (txSignLoopCore view sign combine verify nHashType txVariants mergedTx).tx = mergedTx ∧
      (txSignLoopCore view sign combine verify nHashType txVariants mergedTx).errors.length =
        mergedTx.vin.length :=
  txSignLoop_allUnavail_aux view sign combine verify nHashType txVariants mergedTx hall
    mergedTx.vin.length (Nat.le_refl _)

/-- One loop iteration at index i leaves any other input entry untouched. -/
theorem txSignStep_entry_ne (view : Nat → Option CCoins) (sign : Signer) (combine : Combiner)
    (verify : Verifier) (nHashType : Nat) (txVariants : List CMutableTransaction)
    (st : SignState) (i j : Nat) (hne : j ≠ i) :
    (txSignStep view sign combine verify nHashType txVariants st i).tx.vin[j]? =
      st.tx.vin[j]? :=
  txSignStep_tx_pres view sign combine verify nHashType txVariants
    (fun t => t.vin[j]? = st.tx.vin[j]?) st i
    (fun tx s ht => by
      show (tx.setScriptSig i s).vin[j]? = _
      rw [setScriptSig_getElem_ne tx i j s hne]; exact ht) rfl

/-- C2 loop induction: an input whose referenced output is unavailable is
left entirely unchanged (prevout, scriptSig, sequence) by the whole loop,
and once processed the loop has recorded its
"Input not found or already spent" record built from the unchanged
input. -/
theorem txSignLoop_unavail_aux (view : Nat → Option CCoins) (sign : Signer)
    (combine : Combiner) (verify : Verifier) (nHashType : Nat)
    (txVariants : List CMutableTransaction) (mergedTx : CMutableTransaction)
    (i : Nat) (txin : CTxIn) (h1 : mergedTx.vin[i]? = some txin)
    (h2 : accessOutput view txin.prevout = none) :
    ∀ k,
      ((List.range k).foldl (txSignStep view sign combine verify nHashType txVariants)
          { tx := mergedTx, errors := [], signedIdxs := [], oob := false }).tx.vin[i]? =
        some txin ∧
      (i < k →
        TxInErrorToJSON txin "Input not found or already spent" ∈
          ((List.range k).foldl (txSignStep view sign combine verify nHashType txVariants)
            { tx := mergedTx, errors := [], signedIdxs := [], oob := false }).errors) := by
  intro k
  induction k with
  | zero => exact ⟨h1, by omega⟩
  | succ k ih =>
    obtain ⟨hentry, hmem⟩ := ih
    rw [List.range_succ, List.foldl_append, List.foldl_cons, List.foldl_nil]
    set st := (List.range k).foldl (txSignStep view sign combine verify nHashType txVariants)
      { tx := mergedTx, errors := [], signedIdxs := [], oob := false } with hst
    by_cases hik : i = k
    · subst hik
      rw [txSignStep_eq_unavail view sign combine verify nHashType txVariants st i txin hentry h2]
      exact ⟨hentry, fun _ => by simp⟩
    · constructor
      · rw [txSignStep_entry_ne view sign combine verify nHashType txVariants st k i hik]
        exact hentry
      · intro hik1
        have hik2 : i < k := by omega
        obtain ⟨tl, htl⟩ :=
          txSignStep_errors_mono view sign combine verify nHashType txVariants st k
        rw [htl]
        exact List.mem_append_left _ (hmem hik2)

/-- Shape invariant through an arbitrary fold of loop iterations. -/
theorem txSignFold_shape (view : Nat → Option CCoins) (sign : Signer) (combine : Combiner)
    (verify : Verifier) (nHashType : Nat) (txVariants : List CMutableTransaction)
    (v0 : List CTxOut) (m0 : List (COutPoint × Nat)) (l : List Nat) (st : SignState)
    (hv : st.tx.vout = v0) (hm : st.tx.vin.map CTxIn.shape = m0) :
    (l.foldl (txSignStep view sign combine verify nHashType txVariants) st).tx.vout = v0 ∧
      (l.foldl (txSignStep view sign combine verify nHashType txVariants) st).tx.vin.map
        CTxIn.shape = m0 := by
  refine foldl_invariant
    (fun (st : SignState) => st.tx.vout = v0 ∧ st.tx.vin.map CTxIn.shape = m0)
    _ _ _ ⟨hv, hm⟩ ?_
  intro st i _ h
  refine ⟨?_, ?_⟩
  · exact txSignStep_tx_pres view sign combine verify nHashType txVariants
      (fun t => t.vout = v0) st i
      (fun tx s ht => by show (tx.setScriptSig i s).vout = _; rw [setScriptSig_vout]; exact ht) h.1
  · exact txSignStep_tx_pres view sign combine verify nHashType txVariants
      (fun t => t.vin.map CTxIn.shape = m0) st i
      (fun tx s ht => by
        show (tx.setScriptSig i s).vin.map CTxIn.shape = _
        rw [setScriptSig_shape]; exact ht) h.2

/-- C8 induction: the loop invokes SignSignature exactly for the inputs
satisfying `signedPred`, in ascending order. -/
theorem txSignLoop_signed_aux (view : Nat → Option CCoins) (sign : Signer)
    (combine : Combiner) (verify : Verifier) (nHashType : Nat)
    (txVariants : List CMutableTransaction) (mergedTx : CMutableTransaction) :
    ∀ k,
      ((List.range k).foldl (txSignStep view sign combine verify nHashType txVariants)
          { tx := mergedTx, errors := [], signedIdxs := [], oob := false }).signedIdxs =
        (List.range k).filter (signedPred view nHashType mergedTx) := by
  intro k
  induction k with
  | zero => rfl
  | succ k ih =>
    rw [List.range_succ, List.foldl_append, List.foldl_cons, List.foldl_nil,
      List.filter_append]
    set st := (List.range k).foldl (txSignStep view sign combine verify nHashType txVariants)
      { tx := mergedTx, errors := [], signedIdxs := [], oob := false } with hst
    obtain ⟨hvout, hshape⟩ :=
      txSignFold_shape view sign combine verify nHashType txVariants mergedTx.vout
        (mergedTx.vin.map CTxIn.shape) (List.range k)
        { tx := mergedTx, errors := [], signedIdxs := [], oob := false } rfl rfl
    rw [← hst] at hvout hshape
    have hidx : (st.tx.vin[k]?).map CTxIn.shape = (mergedTx.vin[k]?).map CTxIn.shape := by
      rw [← List.getElem?_map, ← List.getElem?_map, hshape]
    cases hv : st.tx.vin[k]? with
    | none =>
      have hbase : mergedTx.vin[k]? = none := by
        rw [hv] at hidx
        cases hb : mergedTx.vin[k]? with
        | none => rfl
        | some b => rw [hb] at hidx; simp at hidx
      rw [txSignStep_eq_none view sign combine verify nHashType txVariants st k hv]
      have : signedPred view nHashType mergedTx k = false := by
        simp [signedPred, hbase]
      simp [this, ih]
    | some txin =>
      obtain ⟨basein, hbase⟩ : ∃ b, mergedTx.vin[k]? = some b := by
        rw [hv] at hidx
        cases hb : mergedTx.vin[k]? with
        | none => rw [hb] at hidx; simp at hidx
        | some b => exact ⟨b, rfl⟩
      have hprev : txin.prevout = basein.prevout := by
        rw [hv, hbase] at hidx
        simp [CTxIn.shape] at hidx
        exact hidx.1
      cases hacc : accessOutput view txin.prevout with
      | none =>
        rw [txSignStep_eq_unavail view sign combine verify nHashType txVariants st k txin hv hacc]
        have : signedPred view nHashType mergedTx k = false := by
          simp [signedPred, hbase, ← hprev, hacc]
        simp [this, ih]
      | some pk =>
        rw [txSignStep_eq_resolved view sign combine verify nHashType txVariants st k txin pk
          hv hacc]
        have hcore : (txSignStepCore sign combine verify nHashType txVariants st k pk).signedIdxs =
            if !fHashSingle nHashType || decide (k < st.tx.vout.length) then
              st.signedIdxs ++ [k]
            else st.signedIdxs := rfl
        have hpred : signedPred view nHashType mergedTx k =
            (!fHashSingle nHashType || decide (k < mergedTx.vout.length)) := by
          simp [signedPred, hbase, ← hprev, hacc]
        rw [hcore, hvout, ih]
        cases hguard : (!fHashSingle nHashType || decide (k < mergedTx.vout.length)) <;>
          simp [List.filter_cons, List.filter_nil, hpred, hguard]

/-- The ghost list of signed inputs of the whole loop. -/
theorem txSignLoopCore_signed (view : Nat → Option CCoins) (sign : Signer)
    (combine : Combiner) (verify : Verifier) (nHashType : Nat)
    (txVariants : List CMutableTransaction) (mergedTx : CMutableTransaction) :
    (txSignLoopCore view sign combine verify nHashType txVariants mergedTx).signedIdxs =
      (List.range mergedTx.vin.length).filter (signedPred view nHashType mergedTx) :=
  txSignLoop_signed_aux view sign combine verify nHashType txVariants mergedTx
    mergedTx.vin.length

/-- Every error recorded by the loop carries either the resolution-failure
message or a message returned by the Verifier: SignSignature's output by
itself never produces an error. -/
theorem txSignLoopCore_error_strings (view : Nat → Option CCoins) (sign : Signer)
    (combine : Combiner) (verify : Verifier) (nHashType : Nat)
    (txVariants : List CMutableTransaction) (mergedTx : CMutableTransaction) :
    ∀ e ∈ (txSignLoopCore view sign combine verify nHashType txVariants mergedTx).errors,
      e.error = "Input not found or already spent" ∨
        ∃ ss pk tx j, verify ss pk tx j = some e.error := by
  unfold txSignLoopCore
  refine foldl_invariant
    (fun (st : SignState) => ∀ e ∈ st.errors,
      e.error = "Input not found or already spent" ∨
        ∃ ss pk tx j, verify ss pk tx j = some e.error)
    _ _ _ (by simp) ?_
  intro st i _ h
  cases h1 : st.tx.vin[i]? with
  | none =>
    rw [txSignStep_eq_none view sign combine verify nHashType txVariants st i h1]
    exact h
  | some txin =>
    cases h2 : accessOutput view txin.prevout with
    | none =>
      rw [txSignStep_eq_unavail view sign combine verify nHashType txVariants st i txin h1 h2]
      intro e he
      rcases List.mem_append.mp he with he | he
      · exact h e he
      · simp at he
        subst he
        exact Or.inl rfl
    | some pk =>
      rw [txSignStep_eq_resolved view sign combine verify nHashType txVariants st i txin pk h1 h2]
      rcases txSignStepCore_errors sign combine verify nHashType txVariants st i pk with
        heq | ⟨tx3, msg, hv, heq⟩
      · rw [heq]; exact h
      · rw [heq]
        intro e he
        rcases List.mem_append.mp he with he | he
        · exact h e he
        · simp at he
          subst he
          exact Or.inr ⟨_, _, _, _, hv⟩

/-! ## Certificate-loop lemmas -/

theorem certSignStep_eq_none (view : Nat → Option CCoins) (sign : CertSigner)
    (verify : CertVerifier) (nHashType : Nat) (st : CertSignState) (i : Nat)
    (h : st.cert.vin[i]? = none) :
    certSignStep view sign verify nHashType st i = st := by
  simp [certSignStep, h]

theorem certSignStep_eq_unavail (view : Nat → Option CCoins) (sign : CertSigner)
    (verify : CertVerifier) (nHashType : Nat) (st : CertSignState) (i : Nat) (txin : CTxIn)
    (h1 : st.cert.vin[i]? = some txin) (h2 : accessOutput view txin.prevout = none) :
    certSignStep view sign verify nHashType st i =
      { st with errors := st.errors ++ [TxInErrorToJSON txin "Input not found or already spent"] } := by
  simp [certSignStep, h1, h2]

theorem certSignStep_eq_resolved (view : Nat → Option CCoins) (sign : CertSigner)
    (verify : CertVerifier) (nHashType : Nat) (st : CertSignState) (i : Nat) (txin : CTxIn)
    (prevPubKey : Script) (h1 : st.cert.vin[i]? = some txin)
    (h2 : accessOutput view txin.prevout = some prevPubKey) :
    certSignStep view sign verify nHashType st i =
      certSignStepCore sign verify nHashType st i prevPubKey := by
  simp [certSignStep, h1, h2]

/-- When every input's referenced output is unavailable, the certificate
loop leaves the certificate untouched and records exactly one error per
processed input. -/
theorem certSignLoop_allUnavail_aux (view : Nat → Option CCoins) (sign : CertSigner)
    (verify : CertVerifier) (nHashType : Nat) (cert : CMutableScCertificate)
    (hall : ∀ txin ∈ cert.vin, accessOutput view txin.prevout = none) :
    ∀ k, k ≤ cert.vin.length →
      ((List.range k).foldl (certSignStep view sign verify nHashType)
          { cert := cert, errors := [] }).cert = cert ∧
        ((List.range k).foldl (certSignStep view sign verify nHashType)
          { cert := cert, errors := [] }).errors.length = k := by
  intro k
  induction k with
  | zero => intro _; exact ⟨rfl, rfl⟩
  | succ k ih =>
    intro hk
    obtain ⟨hc, herr⟩ := ih (Nat.le_of_succ_le hk)
    rw [List.range_succ, List.foldl_append, List.foldl_cons, List.foldl_nil]
    set st := (List.range k).foldl (certSignStep view sign verify nHashType)
      { cert := cert, errors := [] } with hst
    have hk' : k < cert.vin.length := hk
    have h1 : st.cert.vin[k]? = some cert.vin[k] := by
      rw [hc]; exact List.getElem?_eq_getElem hk'
    have h2 : accessOutput view cert.vin[k].prevout = none :=
      hall _ (List.getElem_mem hk')
    rw [certSignStep_eq_unavail view sign verify nHashType st k _ h1 h2]
    exact ⟨hc, by simp [herr]⟩

theorem certSignLoop_allUnavail (view : Nat → Option CCoins) (sign : CertSigner)
    (verify : CertVerifier) (nHashType : Nat) (cert : CMutableScCertificate)
    (hall : ∀ txin ∈ cert.vin, accessOutput view txin.prevout = none) :
    (certSignLoop view sign verify nHashType cert).cert = cert ∧
      (certSignLoop view sign verify nHashType cert).errors.length = cert.vin.length :=
  certSignLoop_allUnavail_aux view sign verify nHashType cert hall cert.vin.length
    (Nat.le_refl _)

/-! ## Correspondence between the two loops (C6) -/

/-- Grafting commutes with setScriptSig. -/
theorem withShape_setScriptSig (c : CMutableScCertificate) (tx : CMutableTransaction)
    (i : Nat) (s : Script) :
    (withShape c tx).setScriptSig i s = withShape c (tx.setScriptSig i s) := by
  unfold withShape CMutableScCertificate.setScriptSig CMutableTransaction.setScriptSig
  cases h : tx.vin[i]? <;> simp [h]

/-- Re-writing an input's scriptSig with its current value is the
identity. -/
theorem setScriptSig_scriptSigAt (tx : CMutableTransaction) (i : Nat) :
    tx.setScriptSig i (tx.scriptSigAt i) = tx := by
  unfold CMutableTransaction.setScriptSig CMutableTransaction.scriptSigAt
  cases h : tx.vin[i]? with
  | none => rfl
  | some txin =>
    simp only [h, Option.map_some', Option.getD_some]
    have hset : tx.vin.set i
        { prevout := txin.prevout, scriptSig := txin.scriptSig, nSequence := txin.nSequence } =
        tx.vin := List.set_of_getElem_eq tx.vin i _ (by rw [h])
    rw [hset]

/-- withShape only changes payload fields, so input accessors pass
through. -/
theorem withShape_scriptSigAt (c : CMutableScCertificate) (tx : CMutableTransaction) (i : Nat) :
    (withShape c tx).scriptSigAt i = tx.scriptSigAt i := rfl

theorem withShape_vinAt (c : CMutableScCertificate) (tx : CMutableTransaction) (i : Nat) :
    (withShape c tx).vinAt i = tx.vinAt i := rfl

/-- signrawcertificate's per-input processing coincides with
signrawtransaction's once the differences are fixed: a single variant
(the certificate itself), a combiner that keeps the accumulator (no merge
effect), sighash type ALL, and the certificate payload grafted into the
signature-hash context of the Signer and Verifier. -/
theorem certSignLoop_eq_txSignLoop_aux (view : Nat → Option CCoins) (csign : CertSigner)
    (cverify : CertVerifier) (c : CMutableScCertificate) :
    ∀ k,
      ((List.range k).foldl (certSignStep view csign cverify SIGHASH_ALL)
          { cert := c, errors := [] }).cert =
        withShape c
          (((List.range k).foldl
            (txSignStep view (fun pk tx i ht => csign pk (withShape c tx) i ht)
              (fun _ _ _ a _ => a) (fun ss pk tx i => cverify ss pk (withShape c tx) i)
              SIGHASH_ALL [certToTx c])
            { tx := certToTx c, errors := [], signedIdxs := [], oob := false }).tx) ∧
      ((List.range k).foldl (certSignStep view csign cverify SIGHASH_ALL)
          { cert := c, errors := [] }).errors =
        ((List.range k).foldl
          (txSignStep view (fun pk tx i ht => csign pk (withShape c tx) i ht)
            (fun _ _ _ a _ => a) (fun ss pk tx i => cverify ss pk (withShape c tx) i)
            SIGHASH_ALL [certToTx c])
          { tx := certToTx c, errors := [], signedIdxs := [], oob := false }).errors := by
  intro k
  induction k with
  | zero =>
    constructor
    · show c = withShape c (certToTx c)
      cases c; rfl
    · rfl
  | succ k ih =>
    obtain ⟨hc, herr⟩ := ih
    simp only [List.range_succ, List.foldl_append, List.foldl_cons, List.foldl_nil]
    set tsign : Signer := fun pk tx i ht => csign pk (withShape c tx) i ht with htsign
    set tverify : Verifier := fun ss pk tx i => cverify ss pk (withShape c tx) i with htverify
    set combineId : Combiner := fun _ _ _ a _ => a with hcombineId
    set cst := (List.range k).foldl (certSignStep view csign cverify SIGHASH_ALL)
      { cert := c, errors := [] } with hcst
    set tst := (List.range k).foldl
      (txSignStep view tsign combineId tverify SIGHASH_ALL [certToTx c])
      { tx := certToTx c, errors := [], signedIdxs := [], oob := false } with htst
    have hvin : cst.cert.vin = tst.tx.vin := by rw [hc]; rfl
    obtain ⟨-, hshape⟩ :=
      txSignFold_shape view tsign combineId tverify SIGHASH_ALL [certToTx c]
        (certToTx c).vout ((certToTx c).vin.map CTxIn.shape) (List.range k)
        { tx := certToTx c, errors := [], signedIdxs := [], oob := false } rfl rfl
    rw [← htst] at hshape
    have hlen : tst.tx.vin.length = c.vin.length := by
      have := congrArg List.length hshape
      simpa using this
    cases hv : tst.tx.vin[k]? with
    | none =>
      rw [certSignStep_eq_none view csign cverify SIGHASH_ALL cst k (by rw [hvin]; exact hv),
        txSignStep_eq_none view tsign combineId tverify SIGHASH_ALL [certToTx c] tst k hv]
      exact ⟨hc, herr⟩
    | some txin =>
      have hcv : cst.cert.vin[k]? = some txin := by rw [hvin]; exact hv
      cases hacc : accessOutput view txin.prevout with
      | none =>
        rw [certSignStep_eq_unavail view csign cverify SIGHASH_ALL cst k txin hcv hacc,
          txSignStep_eq_unavail view tsign combineId tverify SIGHASH_ALL [certToTx c] tst k
            txin hv hacc]
        exact ⟨hc, by simp [herr]⟩
      | some pk =>
        rw [certSignStep_eq_resolved view csign cverify SIGHASH_ALL cst k txin pk hcv hacc,
          txSignStep_eq_resolved view tsign combineId tverify SIGHASH_ALL [certToTx c] tst k
            txin pk hv hacc]
        have hkc : k < tst.tx.vin.length := by
          by_contra hk
          rw [List.getElem?_eq_none (by omega)] at hv
          exact absurd hv (by simp)
        have hC2 : certC2 csign SIGHASH_ALL cst k pk =
            withShape c (txTx2 tsign SIGHASH_ALL tst k pk) := by
          unfold certC2 txTx2
          rw [hc, withShape_setScriptSig]
          have hfhs : (!fHashSingle SIGHASH_ALL || decide (k < tst.tx.vout.length)) = true := rfl
          rw [if_pos hfhs, withShape_setScriptSig]
        have hk2 : k < c.vin.length := by omega
        have hvini : (certToTx c).vin[k]? = some c.vin[k] := by
          show c.vin[k]? = _
          exact List.getElem?_eq_getElem hk2
        have hT3 : txTx3 tsign combineId SIGHASH_ALL [certToTx c] tst k pk =
            (txTx2 tsign SIGHASH_ALL tst k pk, tst.oob) := by
          unfold txTx3 mergeLoop
          simp only [List.foldl_cons, List.foldl_nil, hvini]
          rw [hcombineId]
          simp only []
          rw [setScriptSig_scriptSigAt]
        refine ⟨?_, ?_⟩
        · show certC2 csign SIGHASH_ALL cst k pk =
            withShape c (txTx3 tsign combineId SIGHASH_ALL [certToTx c] tst k pk).1
          rw [hC2, hT3]
        · show (match cverify ((certC2 csign SIGHASH_ALL cst k pk).scriptSigAt k) pk
                (certC2 csign SIGHASH_ALL cst k pk) k with
              | some msg =>
                cst.errors ++ [TxInErrorToJSON ((certC2 csign SIGHASH_ALL cst k pk).vinAt k) msg]
              | none => cst.errors) = _
          rw [hC2]
          show _ = (match tverify
                (((txTx3 tsign combineId SIGHASH_ALL [certToTx c] tst k pk).1).scriptSigAt k) pk
                (txTx3 tsign combineId SIGHASH_ALL [certToTx c] tst k pk).1 k with
              | some msg =>
                tst.errors ++ [TxInErrorToJSON
                  (((txTx3 tsign combineId SIGHASH_ALL [certToTx c] tst k pk).1).vinAt k) msg]
              | none => tst.errors)
          rw [hT3, htverify]
          simp only [withShape_scriptSigAt, withShape_vinAt]
          cases hres : cverify ((txTx2 tsign SIGHASH_ALL tst k pk).scriptSigAt k) pk
              (withShape c (txTx2 tsign SIGHASH_ALL tst k pk)) k <;>
            simp [hres, herr]

/-! ## Partial-Merkle-tree lemmas -/

/-- Position bound at a height, phrased on leaf indexes. -/
theorem calcTreeWidth_lt_iff (n h pos : Nat) :
    pos < calcTreeWidth n h ↔ pos * 2 ^ h < n := by
  unfold calcTreeWidth
  have hk : 0 < 2 ^ h := Nat.pos_pow_of_pos h (by omega)
  constructor
  · intro hlt
    have h1 : (pos + 1) * 2 ^ h ≤ n + 2 ^ h - 1 :=
      (Nat.le_div_iff_mul_le hk).mp hlt
    have h2 : (pos + 1) * 2 ^ h = pos * 2 ^ h + 2 ^ h := by ring
    omega
  · intro hlt
    have h1 : (pos + 1) * 2 ^ h ≤ n + 2 ^ h - 1 := by
      have h2 : (pos + 1) * 2 ^ h = pos * 2 ^ h + 2 ^ h := by ring
      omega
    exact (Nat.le_div_iff_mul_le hk).mpr h1

/-- The subtree leaf lists of the two children concatenate to the
parent's. -/
theorem subLeaves_split (txids : List Nat) (h pos : Nat) :
    subLeaves txids (h + 1) pos =
      subLeaves txids h (2 * pos) ++ subLeaves txids h (2 * pos + 1) := by
  unfold subLeaves
  have h1 : 2 ^ (h + 1) = 2 ^ h + 2 ^ h := by ring
  rw [h1]
  have h2 : pos * (2 ^ h + 2 ^ h) = 2 * pos * 2 ^ h := by ring
  have h3 : 2 * pos * 2 ^ h + 2 ^ h = (2 * pos + 1) * 2 ^ h := by ring
  rw [h2, List.take_add, List.drop_drop, h3]

/-- Leaves out of range yield the empty subtree. -/
theorem subLeaves_nil (txids : List Nat) (h pos : Nat) (hge : txids.length ≤ pos * 2 ^ h) :
    subLeaves txids h pos = [] := by
  unfold subLeaves
  rw [List.drop_eq_nil_of_le hge, List.take_nil]

/-- A leaf subtree in range is the singleton of the leaf. -/
theorem subLeaves_leaf (txids : List Nat) (pos : Nat) (hlt : pos < txids.length) :
    subLeaves txids 0 pos = [txids.getD pos 0] := by
  unfold subLeaves
  rw [pow_zero, Nat.mul_one]
  rw [List.drop_eq_getElem_cons hlt, show (1 : Nat) = 0 + 1 from rfl,
    List.take_succ_cons, List.take_zero]
  rw [List.getD_eq_getElem txids 0 hlt]

theorem calcTreeHeightAux_le :
    ∀ (fuel n : Nat), n ≤ fuel → n ≤ 2 ^ calcTreeHeightAux fuel n := by
  intro fuel
  induction fuel with
  | zero =>
    intro n hn
    interval_cases n
    simp [calcTreeHeightAux]
  | succ fuel ih =>
    intro n hn
    match n with
    | 0 => simp [calcTreeHeightAux]
    | 1 => simp [calcTreeHeightAux]
    | n + 2 =>
      have hrec : calcTreeHeightAux (fuel + 1) (n + 2) =
          calcTreeHeightAux fuel ((n + 3) / 2) + 1 := rfl
      have hle : (n + 3) / 2 ≤ fuel := by omega
      have := ih ((n + 3) / 2) hle
      rw [hrec, pow_succ]
      omega

/-- The whole tree sits below the root at the computed height. -/
theorem calcTreeHeight_le (n : Nat) : n ≤ 2 ^ calcTreeHeight n :=
  calcTreeHeightAux_le n n (Nat.le_refl n)

/-! ### Unfolding equations -/

theorem traverseAndExtract_zero (H : HashF) (n pos : Nat) (b : Bool) (bits : List Bool)
    (hsh : Nat) (hs : List Nat) :
    traverseAndExtract H n 0 pos (b :: bits) (hsh :: hs) =
      some (hsh, if b then [hsh] else [], bits, hs) := by
  simp [traverseAndExtract]

theorem traverseAndExtract_succ_false (H : HashF) (n h pos : Nat) (bits : List Bool)
    (hsh : Nat) (hs : List Nat) :
    traverseAndExtract H n (h + 1) pos (false :: bits) (hsh :: hs) =
      some (hsh, [], bits, hs) := by
  simp [traverseAndExtract]

theorem traverseAndExtract_succ_true (H : HashF) (n h pos : Nat) (bits : List Bool)
    (hashes : List Nat) :
    traverseAndExtract H n (h + 1) pos (true :: bits) hashes =
      match traverseAndExtract H n h (2 * pos) bits hashes with
      | none => none
      | some (left, lm, bits1, hashes1) =>
        if 2 * pos + 1 < calcTreeWidth n h then
          match traverseAndExtract H n h (2 * pos + 1) bits1 hashes1 with
          | none => none
          | some (right, rm, bits2, hashes2) =>
            some (H left right, lm ++ rm, bits2, hashes2)
        else some (H left left, lm, bits1, hashes1) := by
  simp [traverseAndExtract]

theorem traverseAndBuild_zero (H : HashF) (txids : List Nat) (mtc : Nat → Bool) (pos : Nat) :
    traverseAndBuild H txids mtc 0 pos =
      ([anyMatchIn txids mtc 0 pos], [calcHash H txids 0 pos]) := by
  simp [traverseAndBuild]

theorem traverseAndBuild_succ_nomatch (H : HashF) (txids : List Nat) (mtc : Nat → Bool)
    (h pos : Nat) (hany : anyMatchIn txids mtc (h + 1) pos = false) :
    traverseAndBuild H txids mtc (h + 1) pos = ([false], [calcHash H txids (h + 1) pos]) := by
  simp [traverseAndBuild, hany]

theorem traverseAndBuild_succ_right (H : HashF) (txids : List Nat) (mtc : Nat → Bool)
    (h pos : Nat) (hany : anyMatchIn txids mtc (h + 1) pos = true)
    (hr : 2 * pos + 1 < calcTreeWidth txids.length h) :
    traverseAndBuild H txids mtc (h + 1) pos =
      (true :: ((traverseAndBuild H txids mtc h (2 * pos)).1 ++
          (traverseAndBuild H txids mtc h (2 * pos + 1)).1),
        (traverseAndBuild H txids mtc h (2 * pos)).2 ++
          (traverseAndBuild H txids mtc h (2 * pos + 1)).2) := by
  simp [traverseAndBuild, hany, hr]

theorem traverseAndBuild_succ_noright (H : HashF) (txids : List Nat) (mtc : Nat → Bool)
    (h pos : Nat) (hany : anyMatchIn txids mtc (h + 1) pos = true)
    (hr : ¬ 2 * pos + 1 < calcTreeWidth txids.length h) :
    traverseAndBuild H txids mtc (h + 1) pos =
      (true :: (traverseAndBuild H txids mtc h (2 * pos)).1,
        (traverseAndBuild H txids mtc h (2 * pos)).2) := by
  simp [traverseAndBuild, hany, hr]

theorem calcHash_succ_right (H : HashF) (txids : List Nat) (h pos : Nat)
    (hr : 2 * pos + 1 < calcTreeWidth txids.length h) :
    calcHash H txids (h + 1) pos =
      H (calcHash H txids h (2 * pos)) (calcHash H txids h (2 * pos + 1)) := by
  simp [calcHash, hr]

theorem calcHash_succ_noright (H : HashF) (txids : List Nat) (h pos : Nat)
    (hr : ¬ 2 * pos + 1 < calcTreeWidth txids.length h) :
    calcHash H txids (h + 1) pos =
      H (calcHash H txids h (2 * pos)) (calcHash H txids h (2 * pos)) := by
  simp [calcHash, hr]

/-! ### The build/extract round trip -/

/-- Replaying a built proof consumes exactly its bits and hashes,
recomputes the node's Merkle hash, and recovers exactly the matched
leaves of the subtree, in leaf order. -/
theorem build_extract (H : HashF) (txids : List Nat) (mtc : Nat → Bool) :
    ∀ (h pos : Nat) (restB : List Bool) (restH : List Nat),
      pos * 2 ^ h < txids.length →
      traverseAndExtract H txids.length h pos
          ((traverseAndBuild H txids mtc h pos).1 ++ restB)
          ((traverseAndBuild H txids mtc h pos).2 ++ restH) =
        some (calcHash H txids h pos, (subLeaves txids h pos).filter mtc, restB, restH) := by
  intro h
  induction h with
  | zero =>
    intro pos restB restH hpos
    rw [Nat.pow_zero, Nat.mul_one] at hpos
    rw [traverseAndBuild_zero]
    simp only [List.cons_append, List.nil_append]
    rw [traverseAndExtract_zero]
    have hsub := subLeaves_leaf txids pos hpos
    have hany : anyMatchIn txids mtc 0 pos = mtc (txids.getD pos 0) := by
      unfold anyMatchIn
      rw [hsub]
      simp
    have hleaf : calcHash H txids 0 pos = txids.getD pos 0 := rfl
    cases hm : mtc (txids.getD pos 0) with
    | false =>
      rw [hany, hm, hsub, hleaf]
      rw [List.getD_eq_getElem?_getD] at hm
      simp [List.filter_cons, List.filter_nil, hm]
    | true =>
      rw [hany, hm, hsub, hleaf]
      rw [List.getD_eq_getElem?_getD] at hm
      simp [List.filter_cons, List.filter_nil, hm]
  | succ h ih =>
    intro pos restB restH hpos
    have hposL : 2 * pos * 2 ^ h < txids.length := by
      have he : 2 * pos * 2 ^ h = pos * 2 ^ (h + 1) := by ring
      rw [he]
      exact hpos
    cases hany : anyMatchIn txids mtc (h + 1) pos with
    | false =>
      rw [traverseAndBuild_succ_nomatch H txids mtc h pos hany]
      simp only [List.cons_append, List.nil_append]
      rw [traverseAndExtract_succ_false]
      have hfil : (subLeaves txids (h + 1) pos).filter mtc = [] := by
        unfold anyMatchIn at hany
        rw [List.any_eq_false] at hany
        exact List.filter_eq_nil.mpr (fun a ha => by simp [hany a ha])
      rw [hfil]
    | true =>
      by_cases hr : 2 * pos + 1 < calcTreeWidth txids.length h
      · have hposR : (2 * pos + 1) * 2 ^ h < txids.length :=
          (calcTreeWidth_lt_iff _ _ _).mp hr
        rw [traverseAndBuild_succ_right H txids mtc h pos hany hr]
        simp only [List.cons_append, List.append_assoc]
        rw [traverseAndExtract_succ_true]
        rw [ih (2 * pos) _ _ hposL]
        simp only []
        rw [if_pos hr, ih (2 * pos + 1) restB restH hposR]
        simp only []
        rw [calcHash_succ_right H txids h pos hr, subLeaves_split, List.filter_append]
      · rw [traverseAndBuild_succ_noright H txids mtc h pos hany hr]
        simp only [List.cons_append]
        rw [traverseAndExtract_succ_true]
        rw [ih (2 * pos) restB restH hposL]
        simp only []
        rw [if_neg hr]
        rw [calcHash_succ_noright H txids h pos hr, subLeaves_split, List.filter_append]
        have hnil : subLeaves txids h (2 * pos + 1) = [] := by
          apply subLeaves_nil
          have := (calcTreeWidth_lt_iff txids.length h (2 * pos + 1)).not.mp hr
          omega
        rw [hnil]
        simp [List.filter_nil]

/-- A subtree in range has at least one leaf. -/
theorem subLeaves_length_pos (txids : List Nat) (h pos : Nat)
    (hpos : pos * 2 ^ h < txids.length) : 0 < (subLeaves txids h pos).length := by
  unfold subLeaves
  rw [List.length_take, List.length_drop]
  have : 0 < 2 ^ h := Nat.pos_pow_of_pos h (by omega)
  omega

/-- A built proof retains at most one hash per leaf of the subtree. -/
theorem build_hash_le (H : HashF) (txids : List Nat) (mtc : Nat → Bool) :
    ∀ (h pos : Nat), pos * 2 ^ h < txids.length →
      (traverseAndBuild H txids mtc h pos).2.length ≤ (subLeaves txids h pos).length := by
  intro h
  induction h with
  | zero =>
    intro pos hpos
    rw [Nat.pow_zero, Nat.mul_one] at hpos
    rw [traverseAndBuild_zero, subLeaves_leaf txids pos hpos]
    simp
  | succ h ih =>
    intro pos hpos
    have hposL : 2 * pos * 2 ^ h < txids.length := by
      have he : 2 * pos * 2 ^ h = pos * 2 ^ (h + 1) := by ring
      rw [he]; exact hpos
    cases hany : anyMatchIn txids mtc (h + 1) pos with
    | false =>
      rw [traverseAndBuild_succ_nomatch H txids mtc h pos hany]
      have := subLeaves_length_pos txids (h + 1) pos hpos
      simpa using this
    | true =>
      by_cases hr : 2 * pos + 1 < calcTreeWidth txids.length h
      · have hposR : (2 * pos + 1) * 2 ^ h < txids.length :=
          (calcTreeWidth_lt_iff _ _ _).mp hr
        rw [traverseAndBuild_succ_right H txids mtc h pos hany hr, subLeaves_split,
          List.length_append, List.length_append]
        have h1 := ih (2 * pos) hposL
        have h2 := ih (2 * pos + 1) hposR
        omega
      · rw [traverseAndBuild_succ_noright H txids mtc h pos hany hr, subLeaves_split,
          List.length_append]
        have h1 := ih (2 * pos) hposL
        simp only []
        omega

/-- A built proof has at least as many bits as hashes. -/
theorem build_bits_ge (H : HashF) (txids : List Nat) (mtc : Nat → Bool) :
    ∀ (h pos : Nat),
      (traverseAndBuild H txids mtc h pos).2.length ≤
        (traverseAndBuild H txids mtc h pos).1.length := by
  intro h
  induction h with
  | zero =>
    intro pos
    rw [traverseAndBuild_zero]
    simp
  | succ h ih =>
    intro pos
    cases hany : anyMatchIn txids mtc (h + 1) pos with
    | false =>
      rw [traverseAndBuild_succ_nomatch H txids mtc h pos hany]
      simp
    | true =>
      by_cases hr : 2 * pos + 1 < calcTreeWidth txids.length h
      · rw [traverseAndBuild_succ_right H txids mtc h pos hany hr]
        have h1 := ih (2 * pos)
        have h2 := ih (2 * pos + 1)
        simp only [List.length_cons, List.length_append]
        omega
      · rw [traverseAndBuild_succ_noright H txids mtc h pos hany hr]
        have h1 := ih (2 * pos)
        simp only [List.length_cons]
        omega

/-- ExtractMatches of a built proof recomputes the Merkle root of the
leaf list and recovers exactly the matched leaves, in leaf order. -/
theorem extractMatches_build (H : HashF) (txids : List Nat) (mtc : Nat → Bool)
    (hne : txids ≠ []) :
    extractMatches H (buildPartialTree H txids mtc) =
      (calcHash H txids (calcTreeHeight txids.length) 0, txids.filter mtc) := by
  have hn : 0 < txids.length := List.length_pos.mpr hne
  have hroot : (0 : Nat) * 2 ^ calcTreeHeight txids.length < txids.length := by
    simpa using hn
  have hsub : subLeaves txids (calcTreeHeight txids.length) 0 = txids := by
    unfold subLeaves
    rw [Nat.zero_mul, List.drop_zero]
    exact List.take_of_length_le (calcTreeHeight_le txids.length)
  have hmain := build_extract H txids mtc (calcTreeHeight txids.length) 0 [] [] hroot
  rw [List.append_nil, List.append_nil, hsub] at hmain
  have hhash := build_hash_le H txids mtc (calcTreeHeight txids.length) 0 hroot
  rw [hsub] at hhash
  have hbits := build_bits_ge H txids mtc (calcTreeHeight txids.length) 0
  unfold extractMatches buildPartialTree
  simp only []
  rw [if_neg (by omega), if_neg (by omega), if_neg (by omega), hmain]
  simp

/-! ## gettxoutproof counting -/

/-- When the block and request are duplicate-free and every requested id
occurs in the block, the found-counter equals the request size. -/
theorem ntxFound_eq_of_subset (blockTxids setTxids : List Nat)
    (hbn : blockTxids.Nodup) (hsn : setTxids.Nodup)
    (hsub : ∀ s ∈ setTxids, s ∈ blockTxids) :
    (blockTxids.filter (fun t => setTxids.contains t)).length = setTxids.length := by
  have hfn : (blockTxids.filter (fun t => setTxids.contains t)).Nodup := hbn.filter _
  have hperm : List.Perm (blockTxids.filter (fun t => setTxids.contains t)) setTxids := by
    rw [List.perm_ext_iff_of_nodup hfn hsn]
    intro a
    constructor
    · intro ha
      have h2 := (List.mem_filter.mp ha).2
      simpa [List.contains, List.elem_iff] using h2
    · intro ha
      exact List.mem_filter.mpr ⟨hsub a ha, by simpa [List.contains, List.elem_iff]⟩
  exact hperm.length_eq

/-- When some requested id is missing from the duplicate-free block, the
found-counter falls short of the request size. -/
theorem ntxFound_ne_of_missing (blockTxids setTxids : List Nat)
    (hbn : blockTxids.Nodup) (hsn : setTxids.Nodup) (z : Nat) (hz : z ∈ setTxids)
    (hznot : z ∉ blockTxids) :
    (blockTxids.filter (fun t => setTxids.contains t)).length ≠ setTxids.length := by
  have hfn : (blockTxids.filter (fun t => setTxids.contains t)).Nodup := hbn.filter _
  have hsubE : blockTxids.filter (fun t => setTxids.contains t) ⊆ setTxids.erase z := by
    intro a ha
    have ham := List.mem_filter.mp ha
    have haset : a ∈ setTxids := by simpa [List.contains, List.elem_iff] using ham.2
    have hane : a ≠ z := fun he => hznot (he ▸ ham.1)
    exact (List.mem_erase_of_ne hane).mpr haset
  have hle := (List.subperm_of_subset hfn hsubE).length_le
  rw [List.length_erase_of_mem hz] at hle
  have hpos : 0 < setTxids.length := List.length_pos_of_mem hz
  omega

/-- gettxoutproof on an explicit block hash reduces to the all-or-nothing
found-counter check. -/
theorem gettxoutproof_blockhash (H : HashF) (cs : ChainState) (txidsParam : List Nat)
    (hb : Nat) (block : Block) (hnd : txidsParam.Nodup)
    (hidx : cs.blockIndex hb = some block) :
    gettxoutproof H cs txidsParam (some hb) =
      (if (block.txids.filter (fun t => txidsParam.contains t)).length ≠ txidsParam.length
       then .error "(Not all) transactions not found in specified block"
       else .ok (mkMerkleBlock H block txidsParam)) := by
  unfold gettxoutproof
  rw [if_neg (not_not_intro hnd)]
  simp only [hidx]

/-! ## Claim theorems -/

/-- C1: for both signrawtransaction and signrawcertificate the returned
complete flag is true iff the per-input error list is empty; an entity
with zero inputs yields complete = true, and an entity with at least one
input all of whose referenced outputs are unavailable yields
complete = false with exactly one error record per input. -/
theorem claim1_complete_iff_no_input_error :
    (∀ (view : Nat → Option CCoins) (sign : Signer) (combine : Combiner) (verify : Verifier)
        (nHashType : Nat) (t0 : CMutableTransaction) (rest : List CMutableTransaction)
        (r : SignResult),
      signrawtransaction view sign combine verify nHashType (t0 :: rest) = some r →
        ((r.complete = true ↔ r.errors = []) ∧
          (t0.vin = [] → r.complete = true ∧ r.errors = []) ∧
          ((∀ txin ∈ t0.vin, accessOutput view txin.prevout = none) →
            r.errors.length = t0.vin.length ∧ (t0.vin ≠ [] → r.complete = false)))) ∧
    (∀ (view : Nat → Option CCoins) (sign : CertSigner) (verify : CertVerifier)
        (c : CMutableScCertificate) (r : CertSignResult),
      signrawcertificate view sign verify [c] = .ok r →
        ((r.complete = true ↔ r.errors = []) ∧
          (c.vin = [] → r.complete = true ∧ r.errors = []) ∧
          ((∀ txin ∈ c.vin, accessOutput view txin.prevout = none) →
            r.errors.length = c.vin.length ∧ (c.vin ≠ [] → r.complete = false)))) := by
  constructor
  · intro view sign combine verify nHashType t0 rest r hr
    unfold signrawtransaction at hr
    rw [Option.some.injEq] at hr
    subst hr
    refine ⟨by simp [List.isEmpty_iff], ?_, ?_⟩
    · intro hv
      simp [txSignLoopCore, hv]
    · intro hall
      obtain ⟨-, herr⟩ :=
        txSignLoopCore_allUnavail view sign combine verify nHashType (t0 :: rest) t0 hall
      refine ⟨herr, ?_⟩
      intro hne
      have hlen : 0 < t0.vin.length := List.length_pos.mpr hne
      show List.isEmpty _ = false
      rw [List.isEmpty_eq_false_iff_exists_mem]
      have hpos : 0 <
          (txSignLoopCore view sign combine verify nHashType (t0 :: rest) t0).errors.length := by
        omega
      exact List.exists_mem_of_length_pos hpos
  · intro view sign verify c r hr
    unfold signrawcertificate at hr
    rw [Except.ok.injEq] at hr
    subst hr
    refine ⟨by simp [List.isEmpty_iff], ?_, ?_⟩
    · intro hv
      simp [certSignLoop, hv]
    · intro hall
      obtain ⟨-, herr⟩ := certSignLoop_allUnavail view sign verify SIGHASH_ALL c hall
      refine ⟨herr, ?_⟩
      intro hne
      have hlen : 0 < c.vin.length := List.length_pos.mpr hne
      show List.isEmpty _ = false
      rw [List.isEmpty_eq_false_iff_exists_mem]
      have hpos : 0 < (certSignLoop view sign verify SIGHASH_ALL c).errors.length := by omega
      exact List.exists_mem_of_length_pos hpos

/-! ## Certificate-loop entry preservation -/

theorem cert_setScriptSig_getElem_ne (c : CMutableScCertificate) (i j : Nat) (s : Script)
    (hne : j ≠ i) : (c.setScriptSig i s).vin[j]? = c.vin[j]? := by
  unfold CMutableScCertificate.setScriptSig
  cases h : c.vin[i]? with
  | none => rfl
  | some txin => simp [List.getElem?_set_ne (Ne.symm hne)]

theorem certSignStep_entry_ne (view : Nat → Option CCoins) (sign : CertSigner)
    (verify : CertVerifier) (nHashType : Nat) (st : CertSignState) (i j : Nat) (hne : j ≠ i) :
    (certSignStep view sign verify nHashType st i).cert.vin[j]? = st.cert.vin[j]? := by
  cases h1 : st.cert.vin[i]? with
  | none => rw [certSignStep_eq_none view sign verify nHashType st i h1]
  | some txin =>
    cases h2 : accessOutput view txin.prevout with
    | none => rw [certSignStep_eq_unavail view sign verify nHashType st i txin h1 h2]
    | some pk =>
      rw [certSignStep_eq_resolved view sign verify nHashType st i txin pk h1 h2]
      show (certC2 sign nHashType st i pk).vin[j]? = _
      unfold certC2
      rw [cert_setScriptSig_getElem_ne _ i j _ hne, cert_setScriptSig_getElem_ne _ i j _ hne]

theorem certSignStep_errors_mono (view : Nat → Option CCoins) (sign : CertSigner)
    (verify : CertVerifier) (nHashType : Nat) (st : CertSignState) (i : Nat) :
    ∃ tl, (certSignStep view sign verify nHashType st i).errors = st.errors ++ tl := by
  cases h1 : st.cert.vin[i]? with
  | none => exact ⟨[], by rw [certSignStep_eq_none view sign verify nHashType st i h1]; simp⟩
  | some txin =>
    cases h2 : accessOutput view txin.prevout with
    | none =>
      exact ⟨_, by rw [certSignStep_eq_unavail view sign verify nHashType st i txin h1 h2]⟩
    | some pk =>
      rw [certSignStep_eq_resolved view sign verify nHashType st i txin pk h1 h2]
      show ∃ tl, (certSignStepCore sign verify nHashType st i pk).errors = st.errors ++ tl
      unfold certSignStepCore
      cases hv : verify ((certC2 sign nHashType st i pk).scriptSigAt i) pk
          (certC2 sign nHashType st i pk) i with
      | none => exact ⟨[], by simp [hv]⟩
      | some msg =>
        exact ⟨[TxInErrorToJSON ((certC2 sign nHashType st i pk).vinAt i) msg], by simp [hv]⟩

/-- C2 loop induction, certificate side. -/
theorem certSignLoop_unavail_aux (view : Nat → Option CCoins) (sign : CertSigner)
    (verify : CertVerifier) (nHashType : Nat) (cert : CMutableScCertificate)
    (i : Nat) (txin : CTxIn) (h1 : cert.vin[i]? = some txin)
    (h2 : accessOutput view txin.prevout = none) :
    ∀ k,
      ((List.range k).foldl (certSignStep view sign verify nHashType)
          { cert := cert, errors := [] }).cert.vin[i]? = some txin ∧
      (i < k →
        TxInErrorToJSON txin "Input not found or already spent" ∈
          ((List.range k).foldl (certSignStep view sign verify nHashType)
            { cert := cert, errors := [] }).errors) := by
  intro k
  induction k with
  | zero => exact ⟨h1, by omega⟩
  | succ k ih =>
    obtain ⟨hentry, hmem⟩ := ih
    rw [List.range_succ, List.foldl_append, List.foldl_cons, List.foldl_nil]
    set st := (List.range k).foldl (certSignStep view sign verify nHashType)
      { cert := cert, errors := [] } with hst
    by_cases hik : i = k
    · subst hik
      rw [certSignStep_eq_unavail view sign verify nHashType st i txin hentry h2]
      exact ⟨hentry, fun _ => by simp⟩
    · constructor
      · rw [certSignStep_entry_ne view sign verify nHashType st k i hik]
        exact hentry
      · intro hik1
        have hik2 : i < k := by omega
        obtain ⟨tl, htl⟩ := certSignStep_errors_mono view sign verify nHashType st k
        rw [htl]
        exact List.mem_append_left _ (hmem hik2)

/-- C1 witness: a one-input transaction whose referenced output is
unavailable, processed with no keys: complete = false and one error. -/
theorem claim1_witness :
    signrawtransaction exView0 exSign exCombine exVerifyOk SIGHASH_ALL [exTx1] = some exR1 ∧
      (exR1.complete = true ↔ exR1.errors = []) ∧
      exR1.errors.length = exTx1.vin.length ∧ exR1.complete = false := by
  have h := claim1_complete_iff_no_input_error.1 exView0 exSign exCombine exVerifyOk
    SIGHASH_ALL exTx1 [] exR1 (by rfl)
  have h2 := h.2.2 (by decide)
  exact ⟨by rfl, h.1, h2.1, h2.2 (by decide)⟩

/-- C2 counterexample: the claim says an unavailable input's unlocking
script is left empty; the code `continue`s before the clearing step, so
the base transaction's non-empty script [7] survives in the merged
result. -/
theorem claim2_counterexample :
    signrawtransaction exView0 exSign exCombine exVerifyOk SIGHASH_ALL [exTx1] = some exR1 ∧
      exR1.tx.vin.map CTxIn.scriptSig = [[7]] ∧
      exR1.errors = [TxInErrorToJSON exIn1 "Input not found or already spent"] ∧
      ([[7]] : List Script) ≠ [[]] := by
  refine ⟨by rfl, by rfl, by rfl, by decide⟩

/-- C2 amended: for every input whose referenced output cannot be
resolved, both engines record the error record
"Input not found or already spent" built from the input, leave that input
entirely unchanged (including its unlocking script), and continue: the
loop runs over all inputs and the result keeps one entry per input. -/
theorem claim2_unavailable_input :
    (∀ (view : Nat → Option CCoins) (sign : Signer) (combine : Combiner) (verify : Verifier)
        (nHashType : Nat) (variants : List CMutableTransaction) (t0 : CMutableTransaction)
        (i : Nat) (txin : CTxIn),
      t0.vin[i]? = some txin → accessOutput view txin.prevout = none →
        (txSignLoopCore view sign combine verify nHashType variants t0).tx.vin[i]? =
            some txin ∧
          TxInErrorToJSON txin "Input not found or already spent" ∈
            (txSignLoopCore view sign combine verify nHashType variants t0).errors ∧
          (txSignLoopCore view sign combine verify nHashType variants t0).tx.vin.length =
            t0.vin.length) ∧
    (∀ (view : Nat → Option CCoins) (sign : CertSigner) (verify : CertVerifier)
        (c : CMutableScCertificate) (i : Nat) (txin : CTxIn),
      c.vin[i]? = some txin → accessOutput view txin.prevout = none →
        (certSignLoop view sign verify SIGHASH_ALL c).cert.vin[i]? = some txin ∧
          TxInErrorToJSON txin "Input not found or already spent" ∈
            (certSignLoop view sign verify SIGHASH_ALL c).errors) := by
  constructor
  · intro view sign combine verify nHashType variants t0 i txin h1 h2
    have hi : i < t0.vin.length := by
      by_contra hcon
      rw [List.getElem?_eq_none (by omega)] at h1
      exact absurd h1 (by simp)
    obtain ⟨hentry, hmem⟩ :=
      txSignLoop_unavail_aux view sign combine verify nHashType variants t0 i txin h1 h2
        t0.vin.length
    refine ⟨hentry, hmem hi, ?_⟩
    obtain ⟨-, hshape⟩ :=
      txSignLoopCore_shape view sign combine verify nHashType variants t0
    have := congrArg List.length hshape
    simpa using this
  · intro view sign verify c i txin h1 h2
    have hi : i < c.vin.length := by
      by_contra hcon
      rw [List.getElem?_eq_none (by omega)] at h1
      exact absurd h1 (by simp)
    obtain ⟨hentry, hmem⟩ :=
      certSignLoop_unavail_aux view sign verify SIGHASH_ALL c i txin h1 h2 c.vin.length
    exact ⟨hentry, hmem hi⟩

/-- C2 witness: concrete unresolvable input 0 with non-empty script. -/
theorem claim2_witness :
    exTx1.vin[0]? = some exIn1 ∧ accessOutput exView0 exIn1.prevout = none ∧
      (txSignLoopCore exView0 exSign exCombine exVerifyOk SIGHASH_ALL [exTx1] exTx1).tx.vin[0]? =
          some exIn1 ∧
        TxInErrorToJSON exIn1 "Input not found or already spent" ∈
          (txSignLoopCore exView0 exSign exCombine exVerifyOk SIGHASH_ALL [exTx1] exTx1).errors := by
  have h := claim2_unavailable_input.1 exView0 exSign exCombine exVerifyOk SIGHASH_ALL [exTx1]
    exTx1 0 exIn1 (by rfl) (by rfl)
  exact ⟨by rfl, by rfl, h.1, h.2.1⟩

/-- C6 counterexample: the claim says signrawcertificate applies the
identical per-input algorithm including the fold over every supplied
variant's script.  With identical collaborators (payload-blind signer and
verifier, so only the sighash context could differ) the transaction loop
folds the variant's script [5] into input 0 while the certificate loop,
which has no merge step, leaves the signer's empty script; and supplying
a second certificate is rejected outright instead of being merged. -/
theorem claim6_counterexample :
    (txSignLoopCore exViewA exSign exCombine exVerifyOk SIGHASH_ALL [exTxBase, exTxVar]
        exTxBase).tx.vin.map CTxIn.scriptSig = [[5]] ∧
      (certSignLoop exViewA exCertSign exCertVerifyOk SIGHASH_ALL exCertBase).cert.vin.map
        CTxIn.scriptSig = [[]] ∧
      ([[5]] : List Script) ≠ [[]] ∧
      signrawcertificate exViewA exCertSign exCertVerifyOk [exCertBase, exCertBase] =
        .error "Found extra bytes after certificate" := by
  exact ⟨by rfl, by rfl, by decide, by rfl⟩

/-- C6 amended: signrawcertificate applies the same per-input
resolve / record-error-or-continue / clear / sign / verify sequence as
signrawtransaction, but with exactly one entity (no variant list), no
CombineSignatures merge step, and sighash type fixed to ALL; the
signature-hash context additionally carries the certificate payload.
Formally: the certificate loop coincides with the transaction loop run on
the certificate's input/output shape with a singleton variant list, a
combiner that keeps the accumulator, sighash ALL, and the certificate
payload grafted into the Signer's and Verifier's context. -/
theorem claim6_cert_loop_refines_tx_loop (view : Nat → Option CCoins) (csign : CertSigner)
    (cverify : CertVerifier) (c : CMutableScCertificate) :
    (certSignLoop view csign cverify SIGHASH_ALL c).cert =
      withShape c
        ((txSignLoopCore view (fun pk tx i ht => csign pk (withShape c tx) i ht)
          (fun _ _ _ a _ => a) (fun ss pk tx i => cverify ss pk (withShape c tx) i)
          SIGHASH_ALL [certToTx c] (certToTx c)).tx) ∧
    (certSignLoop view csign cverify SIGHASH_ALL c).errors =
      (txSignLoopCore view (fun pk tx i ht => csign pk (withShape c tx) i ht)
        (fun _ _ _ a _ => a) (fun ss pk tx i => cverify ss pk (withShape c tx) i)
        SIGHASH_ALL [certToTx c] (certToTx c)).errors :=
  certSignLoop_eq_txSignLoop_aux view csign cverify c c.vin.length

/-- C8: for every input whose referenced output resolves, the signer is
invoked iff the sighash type is not SINGLE (modulo ANYONECANPAY) or an
output exists at that index; and every recorded error message comes from
the resolution failure or from the Verifier, never from the signing step
alone. -/
theorem claim8_single_guard_and_sign_never_errors (view : Nat → Option CCoins) (sign : Signer)
    (combine : Combiner) (verify : Verifier) (nHashType : Nat)
    (variants : List CMutableTransaction) (t0 : CMutableTransaction) (i : Nat) (txin : CTxIn)
    (pk : Script) (h1 : t0.vin[i]? = some txin)
    (h2 : accessOutput view txin.prevout = some pk) :
    ((i ∈ (txSignLoopCore view sign combine verify nHashType variants t0).signedIdxs) ↔
        (fHashSingle nHashType = false ∨ i < t0.vout.length)) ∧
      (∀ e ∈ (txSignLoopCore view sign combine verify nHashType variants t0).errors,
        e.error = "Input not found or already spent" ∨
          ∃ ss pk2 tx2 j, verify ss pk2 tx2 j = some e.error) := by
  constructor
  · rw [txSignLoopCore_signed view sign combine verify nHashType variants t0]
    have hi : i < t0.vin.length := by
      by_contra hcon
      rw [List.getElem?_eq_none (by omega)] at h1
      exact absurd h1 (by simp)
    rw [List.mem_filter]
    have hpred : signedPred view nHashType t0 i =
        (!fHashSingle nHashType || decide (i < t0.vout.length)) := by
      simp [signedPred, h1, h2]
    rw [hpred]
    constructor
    · rintro ⟨-, hguard⟩
      rcases Bool.or_eq_true_iff.mp hguard with hg | hg
      · exact Or.inl (by simpa using hg)
      · exact Or.inr (by simpa using hg)
    · intro hg
      refine ⟨List.mem_range.mpr hi, ?_⟩
      rcases hg with hg | hg
      · simp [hg]
      · simp [hg]
  · exact txSignLoopCore_error_strings view sign combine verify nHashType variants t0

/-- C8 witness: input 0 of exTxBase resolves under exViewA; with sighash
ALL the signer is invoked even though there is no output 0. -/
theorem claim8_witness :
    exTxBase.vin[0]? = some exInA ∧ accessOutput exViewA exInA.prevout = some [0xaa] ∧
      (0 ∈ (txSignLoopCore exViewA exSign exCombine exVerifyOk SIGHASH_ALL [exTxBase, exTxVar]
          exTxBase).signedIdxs ↔
        (fHashSingle SIGHASH_ALL = false ∨ 0 < exTxBase.vout.length)) ∧
      fHashSingle SIGHASH_ALL = false := by
  have h := claim8_single_guard_and_sign_never_errors exViewA exSign exCombine exVerifyOk
    SIGHASH_ALL [exTxBase, exTxVar] exTxBase 0 exInA [0xaa] (by rfl) (by rfl)
  exact ⟨by rfl, by rfl, h.1, by decide⟩

/-- C9: the merge step reads each variant's input i with no bounds check;
under the same-shape precondition (every variant has an input at every
index of the merged transaction) the out-of-bounds branch is unreachable,
while without it the branch is reached (concrete second conjunct, with a
variant that has no inputs). -/
theorem claim9_merge_requires_same_shape :
    (∀ (view : Nat → Option CCoins) (sign : Signer) (combine : Combiner) (verify : Verifier)
        (nHashType : Nat) (variants : List CMutableTransaction) (t0 : CMutableTransaction),
      (∀ v ∈ variants, t0.vin.length ≤ v.vin.length) →
        (txSignLoopCore view sign combine verify nHashType variants t0).oob = false) ∧
    (txSignLoopCore exViewA exSign exCombine exVerifyOk SIGHASH_ALL [exTxBase, exTxNoIn]
        exTxBase).oob = true := by
  constructor
  · intro view sign combine verify nHashType variants t0 hvar
    exact txSignLoopCore_oob view sign combine verify nHashType variants t0 hvar
  · rfl

/-- C9 witness: with equal shapes the flag stays down. -/
theorem claim9_witness :
    (∀ v ∈ [exTxBase, exTxVar], exTxBase.vin.length ≤ v.vin.length) ∧
      (txSignLoopCore exViewA exSign exCombine exVerifyOk SIGHASH_ALL [exTxBase, exTxVar]
        exTxBase).oob = false := by
  refine ⟨by decide, ?_⟩
  exact claim9_merge_requires_same_shape.1 exViewA exSign exCombine exVerifyOk SIGHASH_ALL
    [exTxBase, exTxVar] exTxBase (by decide)

/-- C3: round trip.  For every block on the active chain whose declared
header root is the Merkle root of its (duplicate-free) txid list, and
every non-empty duplicate-free set of ids contained in the block,
building the proof via gettxoutproof and verifying it returns exactly
that set of ids (order-independent set equality) with no error. -/
theorem claim3_round_trip (H : HashF) (cs : ChainState) (hb : Nat) (block : Block)
    (ids : List Nat) (hidx : cs.blockIndex hb = some block)
    (hroot : block.hashMerkleRoot =
      calcHash H block.txids (calcTreeHeight block.txids.length) 0)
    (hbn : block.txids.Nodup) (hin : ids.Nodup) (hne : ids ≠ [])
    (hsub : ∀ x ∈ ids, x ∈ block.txids)
    (hchain : cs.inActiveChain block.headerHash = true) :
    ∃ mb m, gettxoutproof H cs ids (some hb) = .ok mb ∧
      verifytxoutproof H cs mb = .ok m ∧ (∀ x, x ∈ m ↔ x ∈ ids) := by
  have hbne : block.txids ≠ [] := by
    intro hcon
    rcases List.exists_mem_of_ne_nil ids hne with ⟨x, hx⟩
    have := hsub x hx
    rw [hcon] at this
    simp at this
  have hcount := ntxFound_eq_of_subset block.txids ids hbn hin hsub
  have hbuild : gettxoutproof H cs ids (some hb) = .ok (mkMerkleBlock H block ids) := by
    rw [gettxoutproof_blockhash H cs ids hb block hin hidx, if_neg (by omega)]
  refine ⟨mkMerkleBlock H block ids, block.txids.filter (fun t => ids.contains t),
    hbuild, ?_, ?_⟩
  · unfold verifytxoutproof mkMerkleBlock
    simp only []
    rw [extractMatches_build H block.txids (fun t => ids.contains t) hbne]
    rw [if_neg (by simp [hroot]), if_neg (by simp [hchain])]
  · intro x
    constructor
    · intro hx
      have h := List.mem_filter.mp hx
      simpa [List.contains, List.elem_iff] using h.2
    · intro hx
      exact List.mem_filter.mpr ⟨hsub x hx, by simpa [List.contains, List.elem_iff]⟩

/-- C3 witness: block [10,20,30,40] at hash 100 on the active chain,
requesting {20, 40}. -/
theorem claim3_witness :
    exChain.blockIndex 100 = some exBlock ∧
      exBlock.hashMerkleRoot =
        calcHash exH exBlock.txids (calcTreeHeight exBlock.txids.length) 0 ∧
      ([20, 40] : List Nat) ≠ [] ∧
      (∃ mb m, gettxoutproof exH exChain [20, 40] (some 100) = .ok mb ∧
        verifytxoutproof exH exChain mb = .ok m ∧ (∀ x, x ∈ m ↔ x ∈ ([20, 40] : List Nat))) := by
  refine ⟨by rfl, by rfl, by decide, ?_⟩
  exact claim3_round_trip exH exChain 100 exBlock [20, 40] (by rfl) (by rfl) (by decide)
    (by decide) (by decide) (by decide) (by rfl)

/-- C4: verification first recomputes the root; on mismatch it returns an
empty matched-id list with no error; only on a match is chain membership
checked, failing with the distinct error "Block not found in chain" when
the header's block is unknown or off the active chain, and returning the
recovered ids otherwise. -/
theorem claim4_root_mismatch_vs_chain_error (H : HashF) (cs : ChainState)
    (mb : CMerkleBlock) :
    ((extractMatches H mb.txn).1 ≠ mb.hashMerkleRoot →
        verifytxoutproof H cs mb = .ok []) ∧
      ((extractMatches H mb.txn).1 = mb.hashMerkleRoot →
        cs.inActiveChain mb.headerHash = false →
          verifytxoutproof H cs mb = .error "Block not found in chain") ∧
      ((extractMatches H mb.txn).1 = mb.hashMerkleRoot →
        cs.inActiveChain mb.headerHash = true →
          verifytxoutproof H cs mb = .ok (extractMatches H mb.txn).2) := by
  refine ⟨?_, ?_, ?_⟩
  · intro h
    unfold verifytxoutproof
    rw [if_pos h]
  · intro h hchain
    unfold verifytxoutproof
    rw [if_neg (by simp [h]), if_pos (by simp [hchain])]
  · intro h hchain
    unfold verifytxoutproof
    rw [if_neg (by simp [h]), if_neg (by simp [hchain])]

/-- C4 witness: a tampered declared root yields ok [], a good proof about
a block off the chain yields the distinct error, and the same good proof
on the chain yields its ids. -/
theorem claim4_witness :
    (extractMatches exH exMbBad.txn).1 ≠ exMbBad.hashMerkleRoot ∧
      verifytxoutproof exH exChain exMbBad = .ok [] ∧
      (extractMatches exH exMbGood.txn).1 = exMbGood.hashMerkleRoot ∧
      verifytxoutproof exH exChainNone exMbGood = .error "Block not found in chain" ∧
      verifytxoutproof exH exChain exMbGood = .ok [20] := by
  refine ⟨by decide, ?_, by decide, ?_, ?_⟩
  · exact (claim4_root_mismatch_vs_chain_error exH exChain exMbBad).1 (by decide)
  · exact (claim4_root_mismatch_vs_chain_error exH exChainNone exMbGood).2.1 (by decide)
      (by rfl)
  · have h := (claim4_root_mismatch_vs_chain_error exH exChain exMbGood).2.2 (by decide)
      (by rfl)
    rw [h]
    rfl

/-- C5 counterexample: the operation is all-or-nothing, but the error
string the code throws is
"(Not all) transactions not found in specified block", not the claimed
"not all transactions found in specified block". -/
theorem claim5_counterexample :
    gettxoutproof exH exChain [20, 99] (some 100) =
        .error "(Not all) transactions not found in specified block" ∧
      "(Not all) transactions not found in specified block" ≠
        "not all transactions found in specified block" := by
  exact ⟨by rfl, by decide⟩

/-- C5 amended: proof construction is all-or-nothing: if any requested id
is absent from the resolved (duplicate-free) block, the whole operation
fails with the error
"(Not all) transactions not found in specified block" and no proof is
produced; if every requested id appears, the proof is produced. -/
theorem claim5_all_or_nothing (H : HashF) (cs : ChainState) (txids : List Nat) (hb : Nat)
    (block : Block) (hnd : txids.Nodup) (hbn : block.txids.Nodup)
    (hidx : cs.blockIndex hb = some block) :
    (∀ z ∈ txids, z ∉ block.txids →
        gettxoutproof H cs txids (some hb) =
          .error "(Not all) transactions not found in specified block") ∧
      ((∀ s ∈ txids, s ∈ block.txids) →
        gettxoutproof H cs txids (some hb) = .ok (mkMerkleBlock H block txids)) := by
  constructor
  · intro z hz hznot
    rw [gettxoutproof_blockhash H cs txids hb block hnd hidx]
    rw [if_pos (ntxFound_ne_of_missing block.txids txids hbn hnd z hz hznot)]
  · intro hsub
    rw [gettxoutproof_blockhash H cs txids hb block hnd hidx]
    rw [if_neg (by
      have := ntxFound_eq_of_subset block.txids txids hbn hnd hsub
      omega)]

/-- C5 witness: {20, 99} fails (99 absent), {20, 40} succeeds. -/
theorem claim5_witness :
    (99 ∈ ([20, 99] : List Nat) ∧ 99 ∉ exBlock.txids ∧
        gettxoutproof exH exChain [20, 99] (some 100) =
          .error "(Not all) transactions not found in specified block") ∧
      ((∀ s ∈ ([20, 40] : List Nat), s ∈ exBlock.txids) ∧
        gettxoutproof exH exChain [20, 40] (some 100) =
          .ok (mkMerkleBlock exH exBlock [20, 40])) := by
  refine ⟨⟨by decide, by decide, ?_⟩, ⟨by decide, ?_⟩⟩
  · exact (claim5_all_or_nothing exH exChain [20, 99] 100 exBlock (by decide) (by decide)
      (by rfl)).1 99 (by decide) (by decide)
  · exact (claim5_all_or_nothing exH exChain [20, 40] 100 exBlock (by decide) (by decide)
      (by rfl)).2 (by decide)

/-- C10: an empty target-id array with an explicit block hash passes the
all-or-nothing check vacuously and yields a proof committing to no
transactions (its verification recovers the empty id list), instead of
being rejected. -/
theorem claim10_empty_targets_accepted (H : HashF) (cs : ChainState) (hb : Nat)
    (block : Block) (hidx : cs.blockIndex hb = some block) (hbne : block.txids ≠ [])
    (hroot : block.hashMerkleRoot =
      calcHash H block.txids (calcTreeHeight block.txids.length) 0)
    (hchain : cs.inActiveChain block.headerHash = true) :
    gettxoutproof H cs [] (some hb) = .ok (mkMerkleBlock H block []) ∧
      verifytxoutproof H cs (mkMerkleBlock H block []) = .ok [] := by
  constructor
  · rw [gettxoutproof_blockhash H cs [] hb block (by simp) hidx]
    rw [if_neg (by simp)]
  · unfold verifytxoutproof mkMerkleBlock
    simp only []
    rw [extractMatches_build H block.txids (fun t => List.contains [] t) hbne]
    rw [if_neg (by simp [hroot]), if_neg (by simp [hchain])]
    simp

/-- C10 witness. -/
theorem claim10_witness :
    exChain.blockIndex 100 = some exBlock ∧ exBlock.txids ≠ [] ∧
      gettxoutproof exH exChain [] (some 100) = .ok (mkMerkleBlock exH exBlock []) ∧
      verifytxoutproof exH exChain (mkMerkleBlock exH exBlock []) = .ok [] := by
  have h := claim10_empty_targets_accepted exH exChain 100 exBlock (by rfl) (by decide)
    (by rfl) (by rfl)
  exact ⟨by rfl, by decide, h.1, h.2⟩

/-- C7: backward-transfer decoding.  When the OP_HASH160 marker is absent
the decode reports the explicit decode-error marker, and when the marker
is present with 20 well-formed trailing hash bytes they are extracted and
byte-reversed; but on a match with truncated trailing bytes the code does
NOT report a decode error: it constructs the hash bytes from iterators
running past the end of the script — an out-of-bounds read (undefined
behavior), modelled here as the distinct `oobRead` outcome.  The third
conjunct evaluates the code at the failing input. -/
theorem claim7_bwt_decode_truncated_oob :
    certBwtPubKeyHash [0x76, 0xa8, 0x88] = .decodeError ∧
      certBwtPubKeyHash ([0xa9, 0x14] ++ List.range 20 ++ [0x88]) =
        .pubKeyHash (List.range 20).reverse ∧
      certBwtPubKeyHash [OP_HASH160] = .oobRead ∧
      certBwtPubKeyHash [OP_HASH160] ≠ .decodeError := by
  refine ⟨by rfl, by decide, by rfl, by decide⟩
